import Mathlib

/-!
Verification of the register-allocation / storage-management engine of the
roc dev backend (crates/compiler/gen_dev/src/generic64/{storage.rs, mod.rs}).

The Rust code is shallowly embedded: symbols and registers are natural
numbers, frame-pointer-relative byte offsets are integers (the source uses
i32 offsets; every place the source checks an i32 bound, the model checks
the same bound explicitly), sizes are naturals (u32 in the source), the
mutable `StorageManager` becomes an explicit state record threaded through
each operation, and every `internal_error!` / `debug_assert!` / `todo!`
becomes an `Except.error` (debug assertions abort compilation in debug
builds, which is the behaviour the specification describes).

The instruction buffer `&mut Vec<'a, u8>` of the storage manager is
modelled as a list of abstract assembler emissions (`Instr`): the concrete
byte encodings live behind the external `Assembler` trait, which is out of
scope; what matters for the claims is which emissions happen.
-/

/-- IR symbols (the source type `Symbol`): opaque unique identifiers. -/
abbrev RocSym := Nat

/-- Join point ids wrap a symbol (roc_mono::ir::JoinPointId). -/
abbrev JoinPointId := Nat

/-- Abstract general-purpose register id (the GeneralReg type parameter). -/
abbrev GReg := Nat

/-- Abstract floating-point register id (the FloatReg type parameter). -/
abbrev FReg := Nat

/-- Abstract assembler emissions, standing in for the byte sequences the
`Assembler` trait writes into the code buffer. One constructor per ASM
entry point the embedded storage-manager code calls. -/
inductive Instr where
  | mov_reg64_base32 (dst : GReg) (offset : Int)
  | mov_freg64_base32 (dst : FReg) (offset : Int)
  | movsx_reg64_base32 (dst : GReg) (offset : Int) (size : Nat)
  | movzx_reg64_base32 (dst : GReg) (offset : Int) (size : Nat)
  | mov_base32_reg64 (offset : Int) (src : GReg)
  | mov_base32_freg64 (offset : Int) (src : FReg)
  | mov_base32_reg32 (offset : Int) (src : GReg)
  | mov_base32_reg16 (offset : Int) (src : GReg)
  | mov_base32_reg8 (offset : Int) (src : GReg)
  | mov_reg32_base32 (dst : GReg) (offset : Int)
  | mov_reg16_base32 (dst : GReg) (offset : Int)
  | mov_reg8_base32 (dst : GReg) (offset : Int)
  | mov_reg64_reg64 (dst : GReg) (src : GReg)
  | mov_freg64_freg64 (dst : FReg) (src : FReg)
  | mov_reg64_imm64 (dst : GReg) (imm : Int)
deriving DecidableEq

/-- enum RegStorage (storage.rs). -/
inductive RegStorage where
  | General (r : GReg)
  | Float (r : FReg)
deriving DecidableEq

/-- enum StackStorage (storage.rs). -/
inductive StackStorage where
  | Primitive (base_offset : Int) (reg : Option RegStorage)
  | ReferencedPrimitive (base_offset : Int) (size : Nat) (sign_extend : Bool)
  | Complex (base_offset : Int) (size : Nat)
deriving DecidableEq

/-- enum Storage (storage.rs). -/
inductive Storage where
  | Reg (r : RegStorage)
  | Stack (s : StackStorage)
  | NoData
deriving DecidableEq

open Instr RegStorage StackStorage Storage

/-- The consumed calling-convention contract: the pieces of the `CallConv`
trait the storage manager reads (register classification predicates and the
default free-register lists used by `reset`). -/
structure CC where
  generalCalleeSaved : GReg → Bool
  floatCalleeSaved : FReg → Bool
  generalCallerSaved : GReg → Bool
  floatCallerSaved : FReg → Bool
  generalDefaultFreeRegs : List GReg
  floatDefaultFreeRegs : List FReg

/-- Errors: internal_error! / debug_assert! / todo! all abort compilation. -/
abbrev Err := String

/-- Reference-counted allocation record: `Rc<(i32, u32)>`.
The `Nat` component is a model identity for the `Rc` cell: two map entries
alias the same allocation exactly when they carry the same id, so the
strong count of an `Rc` equals the number of `allocation_map` entries
holding its id (plus transient locals). -/
abbrev AllocRc := Nat × Int × Nat

/-- struct StorageManager (storage.rs), with the two `MutMap`s that are
only ever read through `get` modelled as lookup functions, the
reference-counted `allocation_map` as an association list (so reference
counts can be computed), and the bump vectors as lists.
`next_alloc_id` is the model counter handing out fresh `Rc` identities. -/
structure SM where
  symbol_storage_map : RocSym → Option Storage
  allocation_map : List (RocSym × AllocRc)
  join_param_map : JoinPointId → Option (List Storage)
  general_free_regs : List GReg
  float_free_regs : List FReg
  general_used_regs : List (GReg × RocSym)
  float_used_regs : List (FReg × RocSym)
  general_used_callee_saved_regs : GReg → Bool
  float_used_callee_saved_regs : FReg → Bool
  free_stack_chunks : List (Int × Nat)
  stack_size : Nat
  fn_call_stack_size : Nat
  next_alloc_id : Nat

/-- Point update of a lookup-function map (MutMap::insert). -/
def mapInsert (m : Nat → Option α) (k : Nat) (v : α) : Nat → Option α :=
  fun q => if q = k then some v else m q

/-- Removal from a lookup-function map (MutMap::remove). -/
def mapErase (m : Nat → Option α) (k : Nat) : Nat → Option α :=
  fun q => if q = k then none else m q

/-- Association-list lookup (first entry with the key). -/
def alookup : List (Nat × α) → Nat → Option α
  | [], _ => none
  | (k, v) :: rest, key => if k = key then some v else alookup rest key

/-- Association-list removal of the first entry with the key. -/
def aerase : List (Nat × α) → Nat → List (Nat × α)
  | [], _ => []
  | (k, v) :: rest, key => if k = key then rest else (k, v) :: aerase rest key

/-- Association-list insert: replace the existing entry in place, append
otherwise (the observable behaviour of HashMap::insert). -/
def ainsert (l : List (Nat × α)) (key : Nat) (v : α) : List (Nat × α) :=
  if (alookup l key).isSome then
    l.map (fun p => if p.1 = key then (key, v) else p)
  else
    l ++ [(key, v)]

/-- Vec::pop: removes and returns the last element. -/
def vecPop : List α → Option (α × List α)
  | [] => none
  | [a] => some (a, [])
  | a :: rest =>
    match vecPop rest with
    | some (x, r) => some (x, a :: r)
    | none => none

/-- fn new_storage_manager (storage.rs): every map and vector starts
empty — in particular the free-register lists are empty until `reset`
fills them from the calling convention defaults. -/
def newStorageManager : SM where
  symbol_storage_map := fun _ => none
  allocation_map := []
  join_param_map := fun _ => none
  general_free_regs := []
  float_free_regs := []
  general_used_regs := []
  float_used_regs := []
  general_used_callee_saved_regs := fun _ => false
  float_used_callee_saved_regs := fun _ => false
  free_stack_chunks := []
  stack_size := 0
  fn_call_stack_size := 0
  next_alloc_id := 0

/-- fn reset (storage.rs): clears every ledger and refills the free
register lists from `CC::GENERAL_DEFAULT_FREE_REGS` /
`CC::FLOAT_DEFAULT_FREE_REGS`. -/
def SM.reset (cc : CC) (s : SM) : SM :=
  { s with
    symbol_storage_map := fun _ => none
    allocation_map := []
    join_param_map := fun _ => none
    general_used_callee_saved_regs := fun _ => false
    general_free_regs := cc.generalDefaultFreeRegs
    general_used_regs := []
    float_used_callee_saved_regs := fun _ => false
    float_free_regs := cc.floatDefaultFreeRegs
    float_used_regs := []
    free_stack_chunks := []
    stack_size := 0
    fn_call_stack_size := 0 }

/-- Lexicographic strict order on `(i32, u32)` chunks, the `Ord` instance
`Vec::binary_search` compares with in `free_stack_chunk`. -/
def chunkLt (a b : Int × Nat) : Bool :=
  a.1 < b.1 || (a.1 = b.1 && a.2 < b.2)

/-- fn free_stack_chunk (storage.rs), acting on the `free_stack_chunks`
list. `binary_search(&loc).unwrap_or_else(|e| e)` on the sorted chunk list
is the lower-bound position of `loc`; the model computes that position by
splitting the list into the entries strictly below `loc` (`before` = the
first `pos` elements) and the rest (`after`), so `get(pos - 1)` is
`before.getLast?` and `get(pos)` is `after.head?`. index surgery on `pos`
becomes reassembly of the two parts. -/
def freeStackChunk (chunks : List (Int × Nat)) (base_offset : Int) (size : Nat) :
    Except Err (List (Int × Nat)) :=
  let loc : Int × Nat := (base_offset, size)
  let before := chunks.takeWhile (fun c => chunkLt c loc)
  let after := chunks.dropWhile (fun c => chunkLt c loc)
  -- Check for overlap with previous and next free chunk.
  let prevCheck : Except Err Bool :=
    match before.getLast? with
    | some (prev_offset, prev_size) =>
      let prev_end := prev_offset + (prev_size : Int)
      if prev_end > base_offset then
        .error "Double free? A previously freed stack location overlaps with the currently freed stack location."
      else
        .ok (prev_end = base_offset)
    | none => .ok false
  let nextCheck : Except Err Bool :=
    match after.head? with
    | some (next_offset, _) =>
      let current_end := base_offset + (size : Int)
      if current_end > next_offset then
        .error "Double free? A previously freed stack location overlaps with the currently freed stack location."
      else
        .ok (current_end = next_offset)
    | none => .ok false
  do
    let merge_with_prev ← prevCheck
    let merge_with_next ← nextCheck
    match merge_with_prev, merge_with_next with
    | true, true =>
      match before.getLast?, after.head? with
      | some (prev_offset, prev_size), some (_, next_size) =>
        .ok (before.dropLast ++ (prev_offset, prev_size + size + next_size) :: after.tail)
      | _, _ => .error "unreachable: merge neighbours vanished"
    | true, false =>
      match before.getLast? with
      | some (prev_offset, prev_size) =>
        .ok (before.dropLast ++ (prev_offset, prev_size + size) :: after)
      | none => .error "unreachable: merge neighbour vanished"
    | false, true =>
      match after.head? with
      | some (_, next_size) =>
        .ok (before ++ (base_offset, next_size + size) :: after.tail)
      | none => .error "unreachable: merge neighbour vanished"
    | false, false => .ok (before ++ loc :: after)

/-- One step of `Iterator::min_by_key` over the enumerated fitting
chunks: keep the current minimum, replacing it only on a strictly smaller
size, so the first element attaining the minimal size wins. -/
def bfStep (acc : Option (Nat × Int × Nat)) (p : Nat × Int × Nat) :
    Option (Nat × Int × Nat) :=
  match acc with
  | none => some p
  | some q => if p.2.2 < q.2.2 then some p else acc

/-- The enumerate-filter-min_by_key step of `claim_stack_size`:
`Iterator::min_by_key` returns the first element attaining the minimal
key, here the chunk size, among the chunks of size at least `amount`.
Returns the index together with the chunk. -/
def findBestFit (chunks : List (Int × Nat)) (amount : Nat) :
    Option (Nat × Int × Nat) :=
  (chunks.enum.filter (fun p => amount ≤ p.2.2)).foldl bfStep none

/-- Rounding to 8-byte alignment as written in `claim_stack_size`. -/
def roundUp8 (amount : Nat) : Nat :=
  if amount % 8 ≠ 0 then amount + 8 - amount % 8 else amount

/-- fn claim_stack_size (storage.rs): 8-byte-align the request, carve it
out of the best-fitting free chunk when one is large enough, otherwise
grow the frame, failing once the frame would cross the signed 32-bit
offset limit (`checked_add` overflow or `new_size > i32::MAX`). -/
def SM.claimStackSize (s : SM) (amount : Nat) : Except Err (Int × SM) :=
  if amount = 0 then .error "debug_assert failed: amount > 0" else
  let amount := roundUp8 amount
  match findBestFit s.free_stack_chunks amount with
  | some (pos, offset, size) =>
    if size = amount then
      .ok (offset, { s with free_stack_chunks := s.free_stack_chunks.eraseIdx pos })
    else
      .ok (offset,
        { s with free_stack_chunks :=
            s.free_stack_chunks.set pos (offset + (amount : Int), size - amount) })
  | none =>
    if 2147483647 < s.stack_size + amount then
      .error "Ran out of stack space"
    else
      .ok (-(((s.stack_size + amount : Nat)) : Int),
        { s with stack_size := s.stack_size + amount })

/-- fn claim_stack_area (storage.rs): claim the rounded size, record a
`Complex` storage and a fresh reference-counted allocation of the
unrounded size, and return the base offset. -/
def SM.claimStackArea (s : SM) (sym : RocSym) (size : Nat) : Except Err (Int × SM) := do
  let (base_offset, s) ← s.claimStackSize size
  let s := { s with
    symbol_storage_map := mapInsert s.symbol_storage_map sym (Stack (Complex base_offset size))
    allocation_map := ainsert s.allocation_map sym (s.next_alloc_id, base_offset, size)
    next_alloc_id := s.next_alloc_id + 1 }
  .ok (base_offset, s)

/-- fn free_reference (storage.rs): drop the symbol's hold on its
allocation and release the byte range once this was the last reference
(`Rc::strong_count == 1` after removing the entry: no other map entry
carries the same `Rc` identity). -/
def SM.freeReference (s : SM) (sym : RocSym) : Except Err SM :=
  match alookup s.allocation_map sym with
  | none => .error "Unknown symbol"
  | some (id, offset, size) =>
    let m := aerase s.allocation_map sym
    if m.all (fun e => e.2.1 ≠ id) then do
      let chunks ← freeStackChunk s.free_stack_chunks offset size
      .ok { s with allocation_map := m, free_stack_chunks := chunks }
    else
      .ok { s with allocation_map := m }

/-- The two register-freeing loops at the end of `free_symbol`: move the
first used-list entry owned by `sym` (if any) back to the free list. -/
def freeRegOfSym (used : List (Nat × RocSym)) (free : List Nat) (sym : RocSym) :
    List (Nat × RocSym) × List Nat :=
  match used.find? (fun p => p.2 = sym) with
  | some (reg, _) => (used.eraseP (fun p => p.2 = sym), free ++ [reg])
  | none => (used, free)

/-- fn free_symbol (storage.rs). -/
def SM.freeSymbol (s : SM) (sym : RocSym) : Except Err SM :=
  if (s.join_param_map sym).isSome then
    -- This is a join point and will not be in the storage map.
    .ok { s with join_param_map := mapErase s.join_param_map sym }
  else do
    let storage := s.symbol_storage_map sym
    let s := { s with symbol_storage_map := mapErase s.symbol_storage_map sym }
    let step : Except Err SM :=
      match storage with
      | some (Stack (.Primitive base_offset _)) =>
        (freeStackChunk s.free_stack_chunks base_offset 8).map
          (fun chunks => { s with free_stack_chunks := chunks })
      | some (Stack (.Complex _ _)) =>
        s.freeReference sym
      | some (Stack (.ReferencedPrimitive _ _ _)) =>
        s.freeReference sym
      | _ => .ok s
    let s ← step
    let (gu, gf) := freeRegOfSym s.general_used_regs s.general_free_regs sym
    let (fu, ff) := freeRegOfSym s.float_used_regs s.float_free_regs sym
    .ok { s with
      general_used_regs := gu, general_free_regs := gf
      float_used_regs := fu, float_free_regs := ff }

/-- fn get_storage_for_sym (storage.rs): lookup, internal error if absent. -/
def SM.getStorageForSym (s : SM) (sym : RocSym) : Except Err Storage :=
  match s.symbol_storage_map sym with
  | some storage => .ok storage
  | none => .error "Unknown symbol"

/-- fn free_to_stack (storage.rs): make sure the value held in
`wanted_reg` by `sym` is on the stack; used/free register lists are
updated by the callers. -/
def SM.freeToStack (s : SM) (buf : List Instr) (sym : RocSym) (wanted : RegStorage) :
    Except Err (List Instr × SM) :=
  match s.symbol_storage_map sym with
  | none => .error "Unknown symbol"
  | some storage =>
    let s := { s with symbol_storage_map := mapErase s.symbol_storage_map sym }
    match storage with
    | Reg reg_storage =>
      if reg_storage = wanted then do
        let (base_offset, s) ← s.claimStackSize 8
        let ins :=
          match reg_storage with
          | .General reg => mov_base32_reg64 base_offset reg
          | .Float reg => mov_base32_freg64 base_offset reg
        .ok (buf ++ [ins],
          { s with symbol_storage_map :=
              mapInsert s.symbol_storage_map sym (Stack (Primitive base_offset none)) })
      else .error "debug_assert failed: reg_storage == wanted_reg"
    | Stack (.Primitive base_offset (some reg_storage)) =>
      if reg_storage = wanted then
        .ok (buf,
          { s with symbol_storage_map :=
              mapInsert s.symbol_storage_map sym (Stack (Primitive base_offset none)) })
      else .error "debug_assert failed: reg_storage == wanted_reg"
    | _ => .error "Cannot free reg from symbol without a reg"

/-- fn get_general_reg (storage.rs): pop a free register (tracking
callee-saved usage), else evict the first used-list entry by spilling it. -/
def SM.getGeneralReg (cc : CC) (s : SM) (buf : List Instr) :
    Except Err (GReg × List Instr × SM) :=
  match vecPop s.general_free_regs with
  | some (reg, rest) =>
    let s := { s with general_free_regs := rest }
    let s :=
      if cc.generalCalleeSaved reg then
        { s with general_used_callee_saved_regs :=
            fun q => if q = reg then true else s.general_used_callee_saved_regs q }
      else s
    .ok (reg, buf, s)
  | none =>
    match s.general_used_regs with
    | (reg, sym) :: rest => do
      let s := { s with general_used_regs := rest }
      let (buf, s) ← s.freeToStack buf sym (General reg)
      .ok (reg, buf, s)
    | [] => .error "completely out of general purpose registers"

/-- fn get_float_reg (storage.rs). -/
def SM.getFloatReg (cc : CC) (s : SM) (buf : List Instr) :
    Except Err (FReg × List Instr × SM) :=
  match vecPop s.float_free_regs with
  | some (reg, rest) =>
    let s := { s with float_free_regs := rest }
    let s :=
      if cc.floatCalleeSaved reg then
        { s with float_used_callee_saved_regs :=
            fun q => if q = reg then true else s.float_used_callee_saved_regs q }
      else s
    .ok (reg, buf, s)
  | none =>
    match s.float_used_regs with
    | (reg, sym) :: rest => do
      let s := { s with float_used_regs := rest }
      let (buf, s) ← s.freeToStack buf sym (Float reg)
      .ok (reg, buf, s)
    | [] => .error "completely out of general purpose registers"

/-- fn claim_general_reg (storage.rs): the symbol must not already have
storage (`debug_assert_eq!(self.symbol_storage_map.get(sym), None)`). -/
def SM.claimGeneralReg (cc : CC) (s : SM) (buf : List Instr) (sym : RocSym) :
    Except Err (GReg × List Instr × SM) :=
  if (s.symbol_storage_map sym).isSome then
    .error "debug_assert failed: symbol already has storage"
  else do
    let (reg, buf, s) ← s.getGeneralReg cc buf
    .ok (reg, buf,
      { s with
        general_used_regs := s.general_used_regs ++ [(reg, sym)]
        symbol_storage_map := mapInsert s.symbol_storage_map sym (Reg (General reg)) })

/-- fn claim_float_reg (storage.rs). -/
def SM.claimFloatReg (cc : CC) (s : SM) (buf : List Instr) (sym : RocSym) :
    Except Err (FReg × List Instr × SM) :=
  if (s.symbol_storage_map sym).isSome then
    .error "debug_assert failed: symbol already has storage"
  else do
    let (reg, buf, s) ← s.getFloatReg cc buf
    .ok (reg, buf,
      { s with
        float_used_regs := s.float_used_regs ++ [(reg, sym)]
        symbol_storage_map := mapInsert s.symbol_storage_map sym (Reg (Float reg)) })

/-- fn with_tmp_general_reg (storage.rs): scoped temporary register,
returned to the free list when the callback is done. -/
def SM.withTmpGeneralReg (cc : CC) (s : SM) (buf : List Instr)
    (callback : SM → List Instr → GReg → Except Err (List Instr × SM)) :
    Except Err (List Instr × SM) := do
  let (reg, buf, s) ← s.getGeneralReg cc buf
  let (buf, s) ← callback s buf reg
  .ok (buf, { s with general_free_regs := s.general_free_regs ++ [reg] })

/-- fn load_to_general_reg (storage.rs). -/
def SM.loadToGeneralReg (cc : CC) (s : SM) (buf : List Instr) (sym : RocSym) :
    Except Err (GReg × List Instr × SM) :=
  match s.symbol_storage_map sym with
  | none => .error "Unknown symbol"
  | some storage =>
    let s := { s with symbol_storage_map := mapErase s.symbol_storage_map sym }
    match storage with
    | Reg (.General reg) =>
      .ok (reg, buf, { s with symbol_storage_map := mapInsert s.symbol_storage_map sym storage })
    | Stack (.Primitive _ (some (.General reg))) =>
      .ok (reg, buf, { s with symbol_storage_map := mapInsert s.symbol_storage_map sym storage })
    | Reg (.Float _) =>
      .error "Cannot load floating point symbol into GeneralReg"
    | Stack (.Primitive _ (some (.Float _))) =>
      .error "Cannot load floating point symbol into GeneralReg"
    | Stack (.Primitive base_offset none) =>
      if base_offset % 8 = 0 then do
        let (reg, buf, s) ← s.getGeneralReg cc buf
        .ok (reg, buf ++ [mov_reg64_base32 reg base_offset],
          { s with
            general_used_regs := s.general_used_regs ++ [(reg, sym)]
            symbol_storage_map :=
              mapInsert s.symbol_storage_map sym
                (Stack (Primitive base_offset (some (General reg)))) })
      else .error "debug_assert failed: base_offset % 8 == 0"
    | Stack (.ReferencedPrimitive base_offset size sign_extend) => do
      let (reg, buf, s) ← s.getGeneralReg cc buf
      let ins :=
        if sign_extend then movsx_reg64_base32 reg base_offset size
        else movzx_reg64_base32 reg base_offset size
      let s :=
        { s with
          general_used_regs := s.general_used_regs ++ [(reg, sym)]
          symbol_storage_map := mapInsert s.symbol_storage_map sym (Reg (General reg)) }
      let s ← s.freeReference sym
      .ok (reg, buf ++ [ins], s)
    | Stack (.Complex _ _) =>
      .error "Cannot load large values into general registers"
    | NoData =>
      .error "Cannot load no data into general registers"

/-- fn load_to_float_reg (storage.rs). -/
def SM.loadToFloatReg (cc : CC) (s : SM) (buf : List Instr) (sym : RocSym) :
    Except Err (FReg × List Instr × SM) :=
  match s.symbol_storage_map sym with
  | none => .error "Unknown symbol"
  | some storage =>
    let s := { s with symbol_storage_map := mapErase s.symbol_storage_map sym }
    match storage with
    | Reg (.Float reg) =>
      .ok (reg, buf, { s with symbol_storage_map := mapInsert s.symbol_storage_map sym storage })
    | Stack (.Primitive _ (some (.Float reg))) =>
      .ok (reg, buf, { s with symbol_storage_map := mapInsert s.symbol_storage_map sym storage })
    | Reg (.General _) =>
      .error "Cannot load general symbol into FloatReg"
    | Stack (.Primitive _ (some (.General _))) =>
      .error "Cannot load general symbol into FloatReg"
    | Stack (.Primitive base_offset none) =>
      if base_offset % 8 = 0 then do
        let (reg, buf, s) ← s.getFloatReg cc buf
        .ok (reg, buf ++ [mov_freg64_base32 reg base_offset],
          { s with
            float_used_regs := s.float_used_regs ++ [(reg, sym)]
            symbol_storage_map :=
              mapInsert s.symbol_storage_map sym
                (Stack (Primitive base_offset (some (Float reg)))) })
      else .error "debug_assert failed: base_offset % 8 == 0"
    | Stack (.ReferencedPrimitive base_offset size _) =>
      if base_offset % 8 = 0 ∧ size = 8 then do
        -- The primitive is aligned and the data is exactly 8 bytes.
        let (reg, buf, s) ← s.getFloatReg cc buf
        let s :=
          { s with
            float_used_regs := s.float_used_regs ++ [(reg, sym)]
            symbol_storage_map := mapInsert s.symbol_storage_map sym (Reg (Float reg)) }
        let s ← s.freeReference sym
        .ok (reg, buf ++ [mov_freg64_base32 reg base_offset], s)
      else .error "todo: loading referenced primitives"
    | Stack (.Complex _ _) =>
      .error "Cannot load large values into float registers"
    | NoData =>
      .error "Cannot load no data into general registers"

/-- fn stack_offset_and_size (storage.rs). -/
def SM.stackOffsetAndSize (s : SM) (sym : RocSym) : Except Err (Int × Nat) :=
  match s.symbol_storage_map sym with
  | some (Stack (.Primitive base_offset _)) => .ok (base_offset, 8)
  | some (Stack (.ReferencedPrimitive base_offset size _)) => .ok (base_offset, size)
  | some (Stack (.Complex base_offset size)) => .ok (base_offset, size)
  | some _ => .error "Data not on the stack"
  | none => .error "Unknown symbol"

/-- Resolved layouts, merging the interned `InLayout` constants that the
`single_register_*` macros match on with the view `layout_interner.get`
returns. The interner itself (roc_mono) is an external collaborator; the
layouts a call receives are inputs of the backend. `other` stands for any
remaining aggregate layout (struct, union, ...), carrying its stack size. -/
inductive MLayout where
  | i8 | i16 | i32 | i64 | i128
  | u8 | u16 | u32 | u64 | u128
  | f32 | f64
  | bool
  | opaquePtr
  | decimal
  | str
  | list
  | boxed
  | lambdaSet (inner : MLayout)
  | other (size : Nat)
deriving DecidableEq

/-- `layout_interner.stack_size` (external, 64-bit target values). -/
def MLayout.stackSize : MLayout → Nat
  | .i8 | .u8 | .bool => 1
  | .i16 | .u16 => 2
  | .i32 | .u32 | .f32 => 4
  | .i64 | .u64 | .f64 | .opaquePtr | .boxed => 8
  | .i128 | .u128 | .decimal => 16
  | .str | .list => 24
  | .lambdaSet inner => inner.stackSize
  | .other size => size

/-- macro single_register_int_builtins. -/
def MLayout.isSingleRegIntBuiltin : MLayout → Bool
  | .i8 | .i16 | .i32 | .i64 | .u8 | .u16 | .u32 | .u64 => true
  | _ => false

/-- macro single_register_integers (BOOL, the int builtins, OPAQUE_PTR). -/
def MLayout.isSingleRegInteger (l : MLayout) : Bool :=
  l = .bool || l.isSingleRegIntBuiltin || l = .opaquePtr

/-- macro single_register_floats. -/
def MLayout.isSingleRegFloat : MLayout → Bool
  | .f32 | .f64 => true
  | _ => false

/-- macro single_register_layouts. -/
def MLayout.isSingleRegLayout (l : MLayout) : Bool :=
  l.isSingleRegInteger || l.isSingleRegFloat

/-- The distinguished literal symbols `Symbol::BOOL_FALSE` and
`Symbol::BOOL_TRUE` special-cased by `copy_symbol_to_stack_offset`. -/
def boolFalseSym : RocSym := 1000000

/-- See `boolFalseSym`. -/
def boolTrueSym : RocSym := 1000001

/-- One `for _ in (0..(size - copied)).step_by(k)` loop of
`copy_to_stack_offset`: the range is computed once on entry, so the loop
body runs `ceil((size - copied) / k)` times, bumping `copied` by `k` each
time (for the 8-byte loop on a non-multiple size this intentionally
over-copies, which the callers exclude via their `size % 8` asserts). -/
def copyLoop (k : Nat) (mkLoad mkStore : Int → Instr) (size : Int)
    (st : Int × List Instr) : Int × List Instr :=
  let (copied, acc) := st
  if (k : Int) ≤ size - copied then
    let n := ((size - copied).toNat + k - 1) / k
    let ins := (List.range n).foldr
      (fun i rest =>
        mkLoad (copied + (k : Int) * i) :: mkStore (copied + (k : Int) * i) :: rest)
      []
    (copied + (k : Int) * n, acc ++ ins)
  else st

/-- fn copy_to_stack_offset (storage.rs): word-at-a-time (8/4/2/1 byte
descending) block copy through a temporary general register. -/
def SM.copyToStackOffset (cc : CC) (s : SM) (buf : List Instr) (size : Nat)
    (from_offset to_offset : Int) : Except Err (List Instr × SM) :=
  s.withTmpGeneralReg cc buf (fun s buf reg =>
    let sz : Int := (size : Int)
    let st : Int × List Instr := (0, [])
    let st := copyLoop 8 (fun c => mov_reg64_base32 reg (from_offset + c))
      (fun c => mov_base32_reg64 (to_offset + c) reg) sz st
    let st := copyLoop 4 (fun c => mov_reg32_base32 reg (from_offset + c))
      (fun c => mov_base32_reg32 (to_offset + c) reg) sz st
    let st := copyLoop 2 (fun c => mov_reg16_base32 reg (from_offset + c))
      (fun c => mov_base32_reg16 (to_offset + c) reg) sz st
    let st := copyLoop 1 (fun c => mov_reg8_base32 reg (from_offset + c))
      (fun c => mov_base32_reg8 (to_offset + c) reg) sz st
    .ok (buf ++ st.2, s))

/-- The shared "large value" path of `copy_symbol_to_stack_offset`
(I128/U128, Str, List, and any aggregate wider than 8 bytes): fetch the
symbol's stack location, check the 8-byte-alignment debug asserts, block
copy. -/
def SM.copyLargeSymbol (cc : CC) (s : SM) (buf : List Instr) (sym : RocSym)
    (layoutSize : Nat) (to_offset : Int) : Except Err (List Instr × SM) := do
  let (from_offset, size) ← s.stackOffsetAndSize sym
  if from_offset % 8 = 0 ∧ size % 8 = 0 ∧ size = layoutSize then
    s.copyToStackOffset cc buf size from_offset to_offset
  else
    .error "debug_assert failed: aligned copy of whole stack value"

/-- fn copy_symbol_to_stack_offset (storage.rs). `OPAQUE_PTR` resolves to
a boxed (pointer) layout, so it takes the `Layout::Boxed` arm. -/
def SM.copySymbolToStackOffset (cc : CC) (s : SM) (buf : List Instr)
    (to_offset : Int) (sym : RocSym) (layout : MLayout) :
    Except Err (List Instr × SM) :=
  match layout with
  | .i128 | .u128 =>
    s.copyLargeSymbol cc buf sym layout.stackSize to_offset
  | .i64 | .u64 =>
    if to_offset % 8 = 0 then do
      let (reg, buf, s) ← s.loadToGeneralReg cc buf sym
      .ok (buf ++ [mov_base32_reg64 to_offset reg], s)
    else .error "debug_assert failed: to_offset % 8 == 0"
  | .i32 | .u32 =>
    if to_offset % 4 = 0 then do
      let (reg, buf, s) ← s.loadToGeneralReg cc buf sym
      .ok (buf ++ [mov_base32_reg32 to_offset reg], s)
    else .error "debug_assert failed: to_offset % 4 == 0"
  | .i16 | .u16 =>
    if to_offset % 2 = 0 then do
      let (reg, buf, s) ← s.loadToGeneralReg cc buf sym
      .ok (buf ++ [mov_base32_reg16 to_offset reg], s)
    else .error "debug_assert failed: to_offset % 2 == 0"
  | .i8 | .u8 => do
    let (reg, buf, s) ← s.loadToGeneralReg cc buf sym
    .ok (buf ++ [mov_base32_reg8 to_offset reg], s)
  | .f64 =>
    if to_offset % 8 = 0 then do
      let (reg, buf, s) ← s.loadToFloatReg cc buf sym
      .ok (buf ++ [mov_base32_freg64 to_offset reg], s)
    else .error "debug_assert failed: to_offset % 8 == 0"
  | .f32 => .error "todo: F32"
  | .bool =>
    if sym = boolFalseSym then do
      let (reg, buf, s) ← s.claimGeneralReg cc buf sym
      .ok (buf ++ [mov_reg64_imm64 reg 0], s)
    else if sym = boolTrueSym then do
      let (reg, buf, s) ← s.claimGeneralReg cc buf sym
      .ok (buf ++ [mov_reg64_imm64 reg 1], s)
    else do
      let (reg, buf, s) ← s.loadToGeneralReg cc buf sym
      .ok (buf ++ [mov_base32_reg8 to_offset reg], s)
  | .decimal => .error "todo: Decimal"
  | .str => s.copyLargeSymbol cc buf sym MLayout.str.stackSize to_offset
  | .list => s.copyLargeSymbol cc buf sym MLayout.list.stackSize to_offset
  | .boxed =>
    if to_offset % 8 = 0 then do
      let (reg, buf, s) ← s.loadToGeneralReg cc buf sym
      .ok (buf ++ [mov_base32_reg64 to_offset reg], s)
    else .error "debug_assert failed: to_offset % 8 == 0"
  | .opaquePtr =>
    if to_offset % 8 = 0 then do
      let (reg, buf, s) ← s.loadToGeneralReg cc buf sym
      .ok (buf ++ [mov_base32_reg64 to_offset reg], s)
    else .error "debug_assert failed: to_offset % 8 == 0"
  | .lambdaSet inner =>
    s.copySymbolToStackOffset cc buf to_offset sym inner
  | .other size =>
    if size = 0 then .ok (buf, s)
    else if 8 < size then s.copyLargeSymbol cc buf sym size to_offset
    else .error "todo: copying data to the stack with this layout"

/-- fn setup_joinpoint (storage.rs): claim a stack location for every
join-point parameter (everything goes on the stack for simplicity) and
record the parameter storages for later jumps. -/
def SM.setupJoinpointGo (s : SM) (acc : List Storage) :
    List (RocSym × MLayout) → Except Err (SM × List Storage)
  | [] => .ok (s, acc)
  | (symbol, layout) :: rest => do
    let s ←
      if layout.isSingleRegLayout then do
        let (base_offset, s) ← s.claimStackSize 8
        pure { s with
          symbol_storage_map :=
            mapInsert s.symbol_storage_map symbol (Stack (Primitive base_offset none))
          allocation_map := ainsert s.allocation_map symbol (s.next_alloc_id, base_offset, 8)
          next_alloc_id := s.next_alloc_id + 1 }
      else
        let stack_size := layout.stackSize
        if stack_size = 0 then
          pure { s with symbol_storage_map := mapInsert s.symbol_storage_map symbol NoData }
        else do
          let (_, s) ← s.claimStackArea symbol stack_size
          pure s
    let st ← s.getStorageForSym symbol
    s.setupJoinpointGo (acc ++ [st]) rest

/-- fn setup_joinpoint (storage.rs), wrapper storing the parameter
storages under the join point id. -/
def SM.setupJoinpoint (s : SM) (id : JoinPointId) (params : List (RocSym × MLayout)) :
    Except Err SM := do
  let (s, param_storage) ← s.setupJoinpointGo [] params
  .ok { s with join_param_map := mapInsert s.join_param_map id param_storage }

/-- The loop body of fn setup_jump (storage.rs) over
`args.iter().zip(arg_layouts).zip(param_storage.iter())`. -/
def SM.setupJumpGo (cc : CC) (s : SM) (buf : List Instr) :
    List ((RocSym × MLayout) × Storage) → Except Err (List Instr × SM)
  | [] => .ok (buf, s)
  | ((sym, layout), wanted) :: rest => do
    let cur ← s.getStorageForSym sym
    if cur = wanted then
      s.setupJumpGo cc buf rest
    else
      match wanted with
      | Reg _ =>
        .error "Register storage is not allowed for jumping to joinpoint"
      | Stack (.Complex base_offset _) => do
        let (buf, s) ← s.copySymbolToStackOffset cc buf base_offset sym layout
        s.setupJumpGo cc buf rest
      | Stack (.Primitive base_offset none) =>
        if layout.isSingleRegInteger then do
          let (reg, buf, s) ← s.loadToGeneralReg cc buf sym
          s.setupJumpGo cc (buf ++ [mov_base32_reg64 base_offset reg]) rest
        else if layout.isSingleRegFloat then do
          let (reg, buf, s) ← s.loadToFloatReg cc buf sym
          s.setupJumpGo cc (buf ++ [mov_base32_freg64 base_offset reg]) rest
        else
          .error "cannot load non-primitive layout to primitive stack location"
      | NoData =>
        s.setupJumpGo cc buf rest
      | Stack (.Primitive _ (some _)) =>
        .error "primitives with register storage are not allowed for jumping to joinpoint"
      | Stack (.ReferencedPrimitive _ _ _) =>
        .error "referenced primitive stack storage is not allowed for jumping to joinpoint"

/-- fn setup_jump (storage.rs): take the recorded parameter storages out,
move every argument into its wanted storage, put the record back. -/
def SM.setupJump (cc : CC) (s : SM) (buf : List Instr) (id : JoinPointId)
    (args : List (RocSym × MLayout)) : Except Err (List Instr × SM) :=
  match s.join_param_map id with
  | none => .error "Jump: unknown point specified to jump to"
  | some param_storage => do
    let s := { s with join_param_map := mapErase s.join_param_map id }
    let (buf, s) ← s.setupJumpGo cc buf (args.zip param_storage)
    .ok (buf, { s with join_param_map := mapInsert s.join_param_map id param_storage })

/-- fn list_len (storage.rs): the destination aliases the list's backing
allocation (an `Rc` clone) and points at its second word. -/
def SM.listLen (s : SM) (dst list : RocSym) : Except Err SM :=
  match alookup s.allocation_map list with
  | none => .error "Unknown symbol"
  | some owned => do
    let s := { s with
      allocation_map := ainsert (ainsert (aerase s.allocation_map list) list owned) dst owned }
    let (list_offset, _) ← s.stackOffsetAndSize list
    .ok { s with
      symbol_storage_map :=
        mapInsert s.symbol_storage_map dst
          (Stack (ReferencedPrimitive (list_offset + 8) 8 false)) }

/-- The operations claim C1 ranges over. -/
inductive StackOp where
  | claimArea (sym : RocSym) (size : Nat)
  | free (sym : RocSym)

/-- Run a sequence of `claim_stack_area` / `free_symbol` calls. -/
def runStackOps (s : SM) : List StackOp → Except Err SM
  | [] => .ok s
  | .claimArea sym size :: rest => do
    let s ← (s.claimStackArea sym size).map (fun p => p.2)
    runStackOps s rest
  | .free sym :: rest => do
    let s ← s.freeSymbol sym
    runStackOps s rest

/-- enum Relocation (mod.rs), with data/name payloads abstracted to tags:
the byte payload of `LocalData` and the name strings are opaque to
`finalize`. -/
inductive MReloc where
  | localData (offset : Nat) (data : Nat)
  | linkedData (offset : Nat) (name : Nat)
  | linkedFunction (offset : Nat) (name : Nat)
  | jmpToReturn (instLoc instSize offset : Nat)
deriving DecidableEq

/-- The first loop of fn finalize (mod.rs): scan the relocations for a
jump-to-return whose end coincides with the end of the body buffer and
remember its size, breaking at the first hit. -/
def findEndJmpSize (bufLen : Nat) : List MReloc → Nat
  | [] => 0
  | .jmpToReturn instLoc instSize _ :: rest =>
    if instLoc + instSize = bufLen then instSize
    else findEndJmpSize bufLen rest
  | _ :: rest => findEndJmpSize bufLen rest

/-- `self.buf[jmp_location + i] = byte` for each encoded byte: in-place
overwrite, panicking (here: `none`) when an index is out of bounds. -/
def writeBytesAt (buf : List Nat) (loc : Nat) (bytes : List Nat) : Option (List Nat) :=
  if loc + bytes.length ≤ buf.length then
    some (buf.take loc ++ bytes ++ buf.drop (loc + bytes.length))
  else
    none

/-- The second loop of fn finalize (mod.rs): rewrite every jump-to-return
relocation except those ending exactly at the end of the body, using
`update_jmp_imm32_offset` (re-encode the jump with displacement
`ret_offset - reloc.offset` and splice the bytes over the old
instruction). -/
def patchJmpsToReturn (jmpEncode : Int → List Nat) (bufLen retOffset : Nat) :
    List MReloc → List Nat → Option (List Nat)
  | [], buf => some buf
  | .jmpToReturn instLoc instSize offset :: rest, buf =>
    if instLoc + instSize = bufLen then
      patchJmpsToReturn jmpEncode bufLen retOffset rest buf
    else
      match writeBytesAt buf instLoc (jmpEncode ((retOffset : Int) - (offset : Int))) with
      | some buf => patchJmpsToReturn jmpEncode bufLen retOffset rest buf
      | none => none
  | _ :: rest, buf => patchJmpsToReturn jmpEncode bufLen retOffset rest buf

/-- fn finalize (mod.rs), parameterized over the external emissions: the
bytes `CC::setup_stack` / `CC::cleanup_stack` / `ASM::ret` append and the
fixed-length encoding `ASM::jmp_imm32` writes for a given displacement.

Elides the trailing jump-to-return when the body ends with one, retargets
every other jump-to-return at the epilogue start, emits
setup ++ body ++ cleanup ++ ret, and shifts the surviving relocations by
the setup length. -/
def finalizeModel (setupBytes cleanupBytes retBytes : List Nat)
    (jmpEncode : Int → List Nat) (buf : List Nat) (relocs : List MReloc) :
    Except Err (List Nat × List MReloc) :=
  let setupOffset := setupBytes.length
  let endJmpSize := findEndJmpSize buf.length relocs
  let retOffset := buf.length - endJmpSize
  match patchJmpsToReturn jmpEncode buf.length retOffset relocs buf with
  | none => .error "buffer index out of bounds"
  | some patched =>
    let out := setupBytes ++ patched.take (buf.length - endJmpSize)
      ++ cleanupBytes ++ retBytes
    let outRelocs := relocs.filterMap (fun r =>
      match r with
      | .localData offset data => some (.localData (offset + setupOffset) data)
      | .linkedData offset name => some (.linkedData (offset + setupOffset) name)
      | .linkedFunction offset name => some (.linkedFunction (offset + setupOffset) name)
      | .jmpToReturn _ _ _ => none)
    .ok (out, outRelocs)

/-! ## Helper lemmas about the map model -/

theorem mapErase_of_not_mem (m : Nat → Option α) (k : Nat) (h : m k = none) :
    mapErase m k = m := by
  funext q
  by_cases hq : q = k
  · simp [mapErase, hq, h]
  · simp [mapErase, hq]

theorem mapInsert_mapErase_self (m : Nat → Option α) (k : Nat) (v : α)
    (h : m k = some v) : mapInsert (mapErase m k) k v = m := by
  funext q
  by_cases hq : q = k
  · simp [mapInsert, mapErase, hq, h]
  · simp [mapInsert, mapErase, hq]

theorem mapInsert_get_self (m : Nat → Option α) (k : Nat) (v : α) :
    mapInsert m k v k = some v := by
  simp [mapInsert]

/-- A concrete calling convention used to instantiate the theorems below
(x86-64-flavoured register numbering; the exact choices are irrelevant). -/
def ccModel : CC where
  generalCalleeSaved := fun r => decide (8 ≤ r)
  floatCalleeSaved := fun _ => false
  generalCallerSaved := fun r => decide (r < 8)
  floatCallerSaved := fun _ => true
  generalDefaultFreeRegs := [0, 1, 2, 3]
  floatDefaultFreeRegs := [16, 17]

/-! ## C8 -/

/-- C8: `claim_general_reg` / `claim_float_reg` called for a symbol that
already has an entry in the symbol-storage map fails with an
internal-consistency error instead of allocating a second storage. -/
theorem c8_claim_register_rejects_existing_storage :
    (∀ (cc : CC) (s : SM) (buf : List Instr) (sym : RocSym) (st : Storage),
      s.symbol_storage_map sym = some st →
      ∃ e, s.claimGeneralReg cc buf sym = .error e)
    ∧ (∀ (cc : CC) (s : SM) (buf : List Instr) (sym : RocSym) (st : Storage),
      s.symbol_storage_map sym = some st →
      ∃ e, s.claimFloatReg cc buf sym = .error e) := by
  constructor
  · intro cc s buf sym st h
    refine ⟨"debug_assert failed: symbol already has storage", ?_⟩
    simp [SM.claimGeneralReg, h]
  · intro cc s buf sym st h
    refine ⟨"debug_assert failed: symbol already has storage", ?_⟩
    simp [SM.claimFloatReg, h]

/-- Witness for C8 at a concrete state: symbol 3 already stores NoData. -/
theorem c8_claim_register_rejects_existing_storage_witness :
    (({ newStorageManager with
        symbol_storage_map := mapInsert newStorageManager.symbol_storage_map 3 NoData } : SM).symbol_storage_map 3
      = some NoData)
    ∧ ∃ e, SM.claimGeneralReg ccModel
        { newStorageManager with
          symbol_storage_map := mapInsert newStorageManager.symbol_storage_map 3 NoData }
        [] 3 = .error e :=
  ⟨by simp [mapInsert],
   c8_claim_register_rejects_existing_storage.1 ccModel _ [] 3 NoData (by simp [mapInsert])⟩

/-! ## C10 -/

/-- C10: `free_symbol` on a symbol that is neither a join point nor in the
symbol-storage map (and so holds no used register either) is a silent
no-op: no "unknown symbol" internal error, state unchanged. -/
theorem c10_free_unknown_symbol_noop (s : SM) (sym : RocSym)
    (hj : s.join_param_map sym = none)
    (hs : s.symbol_storage_map sym = none)
    (hg : ∀ p ∈ s.general_used_regs, p.2 ≠ sym)
    (hf : ∀ p ∈ s.float_used_regs, p.2 ≠ sym) :
    s.freeSymbol sym = .ok s := by
  have hge : s.general_used_regs.find? (fun p => p.2 = sym) = none :=
    List.find?_eq_none.mpr (fun p hp => by simp [hg p hp])
  have hfe : s.float_used_regs.find? (fun p => p.2 = sym) = none :=
    List.find?_eq_none.mpr (fun p hp => by simp [hf p hp])
  simp [SM.freeSymbol, hj, hs, mapErase_of_not_mem _ _ hs, freeRegOfSym,
    Bind.bind, Except.bind, hge, hfe]

/-- Witness for C10: freeing untouched symbol 5 in a fresh manager. -/
theorem c10_free_unknown_symbol_noop_witness :
    (newStorageManager.join_param_map 5 = none
      ∧ newStorageManager.symbol_storage_map 5 = none
      ∧ ∀ p ∈ newStorageManager.general_used_regs, p.2 ≠ 5)
    ∧ newStorageManager.freeSymbol 5 = .ok newStorageManager :=
  ⟨⟨rfl, rfl, by simp [newStorageManager]⟩,
   c10_free_unknown_symbol_noop newStorageManager 5 rfl rfl
     (by simp [newStorageManager]) (by simp [newStorageManager])⟩

/-! ## C9 -/

/-- C9 counterexample: `reset` does not return the storage manager to the
state `new_storage_manager` builds — a fresh manager has empty
free-register lists, while `reset` refills them from the calling
convention defaults, so for the concrete `ccModel` the states differ. -/
theorem c9_reset_differs_from_fresh :
    newStorageManager.reset ccModel ≠ newStorageManager := by
  intro h
  have : (newStorageManager.reset ccModel).general_free_regs
      = newStorageManager.general_free_regs := by rw [h]
  simp [SM.reset, newStorageManager, ccModel] at this

/-- C9 (amended): `reset` clears the symbol, allocation and join-parameter
maps, the used-register lists, the callee-saved sets, the free-stack-chunk
list and both stack sizes, exactly like a fresh manager — but the
free-register lists are set to the calling convention's default lists,
whereas `new_storage_manager` leaves them empty (they are only filled by
the first `reset`). -/
theorem c9_reset_clears_state (cc : CC) (s : SM) :
    (s.reset cc).symbol_storage_map = newStorageManager.symbol_storage_map
    ∧ (s.reset cc).allocation_map = newStorageManager.allocation_map
    ∧ (s.reset cc).join_param_map = newStorageManager.join_param_map
    ∧ (s.reset cc).general_used_regs = []
    ∧ (s.reset cc).float_used_regs = []
    ∧ (s.reset cc).general_used_callee_saved_regs
      = newStorageManager.general_used_callee_saved_regs
    ∧ (s.reset cc).float_used_callee_saved_regs
      = newStorageManager.float_used_callee_saved_regs
    ∧ (s.reset cc).free_stack_chunks = []
    ∧ (s.reset cc).stack_size = 0
    ∧ (s.reset cc).fn_call_stack_size = 0
    ∧ (s.reset cc).general_free_regs = cc.generalDefaultFreeRegs
    ∧ (s.reset cc).float_free_regs = cc.floatDefaultFreeRegs
    ∧ newStorageManager.general_free_regs = []
    ∧ newStorageManager.float_free_regs = [] := by
  refine ⟨rfl, rfl, rfl, rfl, rfl, rfl, rfl, rfl, rfl, rfl, rfl, rfl, rfl, rfl⟩

/-- Witness for C9's amended theorem at the concrete `ccModel`. -/
theorem c9_reset_clears_state_witness :
    (newStorageManager.reset ccModel).general_free_regs
        = ccModel.generalDefaultFreeRegs
    ∧ newStorageManager.general_free_regs = [] :=
  ⟨(c9_reset_clears_state ccModel newStorageManager).2.2.2.2.2.2.2.2.2.2.1,
   (c9_reset_clears_state ccModel newStorageManager).2.2.2.2.2.2.2.2.2.2.2.2.1⟩

/-! ## C6 -/

/-- C6: immediately after `claim_general_reg` (resp. `claim_float_reg`)
assigns a register to a symbol, `load_to_general_reg` (resp.
`load_to_float_reg`) on that symbol returns the same register, emits
nothing, and leaves the storage-manager state unchanged. -/
theorem c6_claim_then_load_noop :
    (∀ (cc : CC) (s : SM) (buf : List Instr) (sym : RocSym) (reg : GReg)
        (buf1 : List Instr) (s1 : SM),
      s.claimGeneralReg cc buf sym = .ok (reg, buf1, s1) →
      s1.loadToGeneralReg cc buf1 sym = .ok (reg, buf1, s1))
    ∧ (∀ (cc : CC) (s : SM) (buf : List Instr) (sym : RocSym) (reg : FReg)
        (buf1 : List Instr) (s1 : SM),
      s.claimFloatReg cc buf sym = .ok (reg, buf1, s1) →
      s1.loadToFloatReg cc buf1 sym = .ok (reg, buf1, s1)) := by
  constructor
  · intro cc s buf sym reg buf1 s1 hc
    by_cases h0 : (s.symbol_storage_map sym).isSome
    · simp [SM.claimGeneralReg, h0] at hc
    · cases hg : s.getGeneralReg cc buf with
      | error e => simp [SM.claimGeneralReg, h0, hg, Bind.bind, Except.bind] at hc
      | ok trip =>
        obtain ⟨r0, b0, s0⟩ := trip
        simp [SM.claimGeneralReg, h0, hg, Bind.bind, Except.bind] at hc
        obtain ⟨rfl, rfl, rfl⟩ := hc
        have hmap : (mapInsert s0.symbol_storage_map sym (Reg (General r0))) sym
            = some (Reg (General r0)) := mapInsert_get_self _ _ _
        simp [SM.loadToGeneralReg, hmap, mapInsert_mapErase_self _ _ _ hmap]
  · intro cc s buf sym reg buf1 s1 hc
    by_cases h0 : (s.symbol_storage_map sym).isSome
    · simp [SM.claimFloatReg, h0] at hc
    · cases hg : s.getFloatReg cc buf with
      | error e => simp [SM.claimFloatReg, h0, hg, Bind.bind, Except.bind] at hc
      | ok trip =>
        obtain ⟨r0, b0, s0⟩ := trip
        simp [SM.claimFloatReg, h0, hg, Bind.bind, Except.bind] at hc
        obtain ⟨rfl, rfl, rfl⟩ := hc
        have hmap : (mapInsert s0.symbol_storage_map sym (Reg (Float r0))) sym
            = some (Reg (Float r0)) := mapInsert_get_self _ _ _
        simp [SM.loadToFloatReg, hmap, mapInsert_mapErase_self _ _ _ hmap]

/-- Concrete pre-state for the C6 witness: one free general register. -/
def c6src : SM := { newStorageManager with general_free_regs := [2] }

/-- Concrete post-state for the C6 witness. -/
def c6dst : SM :=
  { newStorageManager with
    general_used_regs := [(2, 7)]
    symbol_storage_map := mapInsert newStorageManager.symbol_storage_map 7 (Reg (General 2)) }

/-- Witness for C6: claim a register for symbol 7 in a manager with one
free register, then load it back. -/
theorem c6_claim_then_load_noop_witness :
    c6src.claimGeneralReg ccModel [] 7 = .ok (2, [], c6dst)
    ∧ SM.loadToGeneralReg ccModel c6dst [] 7 = .ok (2, [], c6dst) :=
  ⟨rfl, c6_claim_then_load_noop.1 ccModel c6src [] 7 2 [] c6dst rfl⟩

/-! ## C2 -/

/-- C2: for a `Complex`/`ReferencedPrimitive` symbol, `free_symbol` drops
the symbol's claim on its backing Allocation; the byte range goes back to
the free-chunk pool only when no other symbol still references the same
Allocation (the reference count reaches zero). While another aliasing
symbol is live, the free-stack-chunk list is left untouched. -/
theorem c2_alloc_refcount (s : SM) (sym : RocSym) (st : StackStorage)
    (id : Nat) (aoff : Int) (asz : Nat)
    (hj : s.join_param_map sym = none)
    (hst : s.symbol_storage_map sym = some (Stack st))
    (hcr : (∃ o sz, st = StackStorage.Complex o sz)
      ∨ (∃ o sz se, st = StackStorage.ReferencedPrimitive o sz se))
    (ha : alookup s.allocation_map sym = some (id, aoff, asz)) :
    ((aerase s.allocation_map sym).all (fun e => e.2.1 ≠ id) = false →
      ∃ s', s.freeSymbol sym = .ok s'
        ∧ s'.free_stack_chunks = s.free_stack_chunks
        ∧ s'.allocation_map = aerase s.allocation_map sym)
    ∧ (∀ chunks', (aerase s.allocation_map sym).all (fun e => e.2.1 ≠ id) = true →
      freeStackChunk s.free_stack_chunks aoff asz = .ok chunks' →
      ∃ s', s.freeSymbol sym = .ok s'
        ∧ s'.free_stack_chunks = chunks'
        ∧ s'.allocation_map = aerase s.allocation_map sym) := by
  constructor
  · intro hall
    refine ⟨{ s with
        symbol_storage_map := mapErase s.symbol_storage_map sym
        allocation_map := aerase s.allocation_map sym
        general_used_regs := (freeRegOfSym s.general_used_regs s.general_free_regs sym).1
        general_free_regs := (freeRegOfSym s.general_used_regs s.general_free_regs sym).2
        float_used_regs := (freeRegOfSym s.float_used_regs s.float_free_regs sym).1
        float_free_regs := (freeRegOfSym s.float_used_regs s.float_free_regs sym).2 },
      ?_, rfl, rfl⟩
    rcases hcr with ⟨o, sz, rfl⟩ | ⟨o, sz, se, rfl⟩ <;>
      simp only [SM.freeSymbol, hj, hst, SM.freeReference, ha, hall,
        Bind.bind, Except.bind, Option.isSome_none, Bool.false_eq_true,
        if_neg, if_false, Bool.ite_eq_false_distrib]
  · intro chunks' hall hfc
    refine ⟨{ s with
        symbol_storage_map := mapErase s.symbol_storage_map sym
        allocation_map := aerase s.allocation_map sym
        free_stack_chunks := chunks'
        general_used_regs := (freeRegOfSym s.general_used_regs s.general_free_regs sym).1
        general_free_regs := (freeRegOfSym s.general_used_regs s.general_free_regs sym).2
        float_used_regs := (freeRegOfSym s.float_used_regs s.float_free_regs sym).1
        float_free_regs := (freeRegOfSym s.float_used_regs s.float_free_regs sym).2 },
      ?_, rfl, rfl⟩
    rcases hcr with ⟨o, sz, rfl⟩ | ⟨o, sz, se, rfl⟩ <;>
      simp only [SM.freeSymbol, hj, hst, SM.freeReference, ha, hall, hfc,
        Bind.bind, Except.bind, Option.isSome_none, Bool.false_eq_true,
        if_neg, if_false, if_true, Bool.ite_eq_false_distrib]

/-- Concrete state for the C2 witness: symbols 4 and 9 alias the same
reference-counted allocation (id 0) covering 16 bytes at offset -16. -/
def c2src : SM :=
  { newStorageManager with
    symbol_storage_map :=
      mapInsert
        (mapInsert newStorageManager.symbol_storage_map 4 (Stack (Complex (-16) 16)))
        9 (Stack (ReferencedPrimitive (-8) 8 false))
    allocation_map := [(4, (0, -16, 16)), (9, (0, -16, 16))] }

/-- Witness for C2: freeing symbol 4 while symbol 9 still references the
shared allocation leaves the free-chunk pool untouched. -/
theorem c2_alloc_refcount_witness :
    (c2src.symbol_storage_map 4 = some (Stack (Complex (-16) 16))
      ∧ alookup c2src.allocation_map 4 = some (0, -16, 16)
      ∧ ((aerase c2src.allocation_map 4).all (fun e => e.2.1 ≠ 0)) = false)
    ∧ ∃ s', c2src.freeSymbol 4 = .ok s'
        ∧ s'.free_stack_chunks = c2src.free_stack_chunks
        ∧ s'.allocation_map = aerase c2src.allocation_map 4 :=
  ⟨⟨rfl, rfl, rfl⟩,
   (c2_alloc_refcount c2src 4 (StackStorage.Complex (-16) 16) 0 (-16) 16
      rfl rfl (Or.inl ⟨-16, 16, rfl⟩) rfl).1 rfl⟩

/-! ## C4 -/

theorem bfFold_some_spec :
    ∀ (l : List (Nat × Int × Nat)) (a res : Nat × Int × Nat),
      l.foldl bfStep (some a) = some res →
      (res = a ∨ res ∈ l) ∧ res.2.2 ≤ a.2.2 ∧ ∀ q ∈ l, res.2.2 ≤ q.2.2 := by
  intro l
  induction l with
  | nil =>
    intro a res h
    simp [List.foldl] at h
    exact ⟨Or.inl h.symm, le_of_eq (congrArg (fun x => x.2.2) h.symm), by simp⟩
  | cons p t ih =>
    intro a res h
    simp only [List.foldl_cons] at h
    by_cases hlt : p.2.2 < a.2.2
    · have h' : t.foldl bfStep (some p) = some res := by
        simpa [bfStep, hlt] using h
      obtain ⟨hmem, hle, hall⟩ := ih p res h'
      refine ⟨?_, le_trans hle (le_of_lt hlt), ?_⟩
      · rcases hmem with rfl | hmem
        · exact Or.inr (List.mem_cons_self _ _)
        · exact Or.inr (List.mem_cons_of_mem _ hmem)
      · intro q hq
        rcases List.mem_cons.mp hq with rfl | hq
        · exact hle
        · exact hall q hq
    · have h' : t.foldl bfStep (some a) = some res := by
        simpa [bfStep, hlt] using h
      obtain ⟨hmem, hle, hall⟩ := ih a res h'
      refine ⟨?_, hle, ?_⟩
      · rcases hmem with rfl | hmem
        · exact Or.inl rfl
        · exact Or.inr (List.mem_cons_of_mem _ hmem)
      · intro q hq
        rcases List.mem_cons.mp hq with rfl | hq
        · exact le_trans hle (not_lt.mp hlt)
        · exact hall q hq

theorem bfFold_none_spec (l : List (Nat × Int × Nat)) (res : Nat × Int × Nat)
    (h : l.foldl bfStep none = some res) :
    res ∈ l ∧ ∀ q ∈ l, res.2.2 ≤ q.2.2 := by
  cases l with
  | nil => simp [List.foldl] at h
  | cons p t =>
    have h' : t.foldl bfStep (some p) = some res := by
      simpa [bfStep] using h
    obtain ⟨hmem, hle, hall⟩ := bfFold_some_spec t p res h'
    refine ⟨?_, ?_⟩
    · rcases hmem with rfl | hmem
      · exact List.mem_cons_self _ _
      · exact List.mem_cons_of_mem _ hmem
    · intro q hq
      rcases List.mem_cons.mp hq with rfl | hq
      · exact hle
      · exact hall q hq

theorem bfFold_isSome :
    ∀ (l : List (Nat × Int × Nat)) (a : Nat × Int × Nat),
      ∃ r, l.foldl bfStep (some a) = some r := by
  intro l
  induction l with
  | nil => exact fun a => ⟨a, rfl⟩
  | cons p t ih =>
    intro a
    by_cases hlt : p.2.2 < a.2.2 <;> simp only [List.foldl_cons, bfStep, hlt] <;>
      simp [ih p, ih a, hlt]

/-- `findBestFit` returns a chunk of the list that fits and has minimal
size among the fitting chunks, together with its index. -/
theorem findBestFit_some_spec (chunks : List (Int × Nat)) (amount : Nat)
    (pos : Nat) (off : Int) (sz : Nat)
    (h : findBestFit chunks amount = some (pos, off, sz)) :
    chunks[pos]? = some (off, sz) ∧ amount ≤ sz
      ∧ ∀ c ∈ chunks, amount ≤ c.2 → sz ≤ c.2 := by
  obtain ⟨hmem, hall⟩ := bfFold_none_spec _ _ h
  rw [List.mem_filter] at hmem
  obtain ⟨henum, hfit⟩ := hmem
  have hget : chunks[pos]? = some (off, sz) :=
    (List.mk_mem_enum_iff_getElem?).mp henum
  refine ⟨hget, by simpa using hfit, ?_⟩
  intro c hc hcfit
  obtain ⟨i, hi⟩ := List.getElem?_of_mem hc
  have : (i, c) ∈ chunks.enum.filter (fun p => amount ≤ p.2.2) := by
    rw [List.mem_filter]
    exact ⟨(List.mk_mem_enum_iff_getElem?).mpr hi, by simpa using hcfit⟩
  exact hall (i, c) this

/-- When `findBestFit` finds nothing, no chunk fits. -/
theorem findBestFit_none_spec (chunks : List (Int × Nat)) (amount : Nat)
    (h : findBestFit chunks amount = none) :
    ∀ c ∈ chunks, c.2 < amount := by
  intro c hc
  by_contra hfit
  obtain ⟨i, hi⟩ := List.getElem?_of_mem hc
  have hmem : (i, c) ∈ chunks.enum.filter (fun p => amount ≤ p.2.2) := by
    rw [List.mem_filter]
    exact ⟨(List.mk_mem_enum_iff_getElem?).mpr hi, by simpa using not_lt.mp hfit⟩
  unfold findBestFit at h
  rcases hq : chunks.enum.filter (fun p => amount ≤ p.2.2) with _ | ⟨p, t⟩
  · rw [hq] at hmem; simp at hmem
  · rw [hq] at h
    simp only [List.foldl_cons] at h
    obtain ⟨r, hr⟩ := bfFold_isSome t p
    rw [show bfStep none p = some p from rfl, hr] at h
    exact Option.noConfusion h

theorem roundUp8_spec (n : Nat) :
    n ≤ roundUp8 n ∧ roundUp8 n < n + 8 ∧ roundUp8 n % 8 = 0 := by
  unfold roundUp8
  split <;> omega

theorem alookup_append_of_none (l : List (Nat × α)) (k : Nat) (v : α)
    (h : alookup l k = none) : alookup (l ++ [(k, v)]) k = some v := by
  induction l with
  | nil => simp [alookup]
  | cons p t ih =>
    obtain ⟨k', v'⟩ := p
    by_cases hk : k' = k
    · simp [alookup, hk] at h
    · simp only [alookup, if_neg hk] at h
      simp only [List.cons_append, alookup, if_neg hk]
      exact ih h

theorem alookup_replace_of_some (l : List (Nat × α)) (k : Nat) (v : α)
    (h : (alookup l k).isSome) :
    alookup (l.map (fun p => if p.1 = k then (k, v) else p)) k = some v := by
  induction l with
  | nil => simp [alookup] at h
  | cons p t ih =>
    obtain ⟨k', v'⟩ := p
    by_cases hk : k' = k
    · subst hk
      simp only [List.map_cons]
      simp [alookup]
    · simp only [alookup, if_neg hk] at h
      simp only [List.map_cons]
      rw [if_neg hk]
      simp only [alookup, if_neg hk]
      exact ih h

theorem alookup_ainsert_self (l : List (Nat × α)) (k : Nat) (v : α) :
    alookup (ainsert l k v) k = some v := by
  unfold ainsert
  by_cases h : (alookup l k).isSome
  · simp only [h, if_true]
    exact alookup_replace_of_some l k v h
  · simp only [h, if_false]
    exact alookup_append_of_none l k v (Option.not_isSome_iff_eq_none.mp h)

/-- Behaviour of fn claim_stack_size: with a positive request, either a
best-fitting chunk is carved (smallest fitting size, split if strictly
larger, frame untouched), or no chunk fits and the frame grows by the
8-byte-rounded amount, failing only past the signed 32-bit limit. -/
theorem claimStackSize_spec (s : SM) (n : Nat) (h : 0 < n) :
    match s.claimStackSize n with
    | .ok (off, s') =>
      s'.symbol_storage_map = s.symbol_storage_map
      ∧ s'.allocation_map = s.allocation_map
      ∧ s'.next_alloc_id = s.next_alloc_id
      ∧ s'.general_used_regs = s.general_used_regs
      ∧ s'.general_free_regs = s.general_free_regs
      ∧ s'.float_used_regs = s.float_used_regs
      ∧ s'.float_free_regs = s.float_free_regs
      ∧ s'.join_param_map = s.join_param_map
      ∧ ((∃ pos c, s.free_stack_chunks[pos]? = some c ∧ c.1 = off
          ∧ roundUp8 n ≤ c.2
          ∧ (∀ c' ∈ s.free_stack_chunks, roundUp8 n ≤ c'.2 → c.2 ≤ c'.2)
          ∧ s'.stack_size = s.stack_size
          ∧ ((c.2 = roundUp8 n ∧ s'.free_stack_chunks = s.free_stack_chunks.eraseIdx pos)
            ∨ (roundUp8 n < c.2
              ∧ s'.free_stack_chunks
                = s.free_stack_chunks.set pos (off + (roundUp8 n : Int), c.2 - roundUp8 n))))
        ∨ ((∀ c ∈ s.free_stack_chunks, c.2 < roundUp8 n)
          ∧ off = -((s.stack_size : Int) + (roundUp8 n : Int))
          ∧ s'.stack_size = s.stack_size + roundUp8 n
          ∧ s'.free_stack_chunks = s.free_stack_chunks))
    | .error _ =>
      (∀ c ∈ s.free_stack_chunks, c.2 < roundUp8 n)
      ∧ 2147483647 < s.stack_size + roundUp8 n := by
  have hn : ¬ n = 0 := Nat.pos_iff_ne_zero.mp h
  rcases hbf : findBestFit s.free_stack_chunks (roundUp8 n) with _ | ⟨pos, off0, sz0⟩
  · by_cases hov : 2147483647 < s.stack_size + roundUp8 n
    · have hcs : s.claimStackSize n = .error "Ran out of stack space" := by
        simp [SM.claimStackSize, hn, hbf, hov]
      rw [hcs]
      exact ⟨findBestFit_none_spec _ _ hbf, hov⟩
    · have hcs : s.claimStackSize n
          = .ok (-(((s.stack_size + roundUp8 n : Nat)) : Int),
              { s with stack_size := s.stack_size + roundUp8 n }) := by
        simp [SM.claimStackSize, hn, hbf, hov]
      rw [hcs]
      refine ⟨rfl, rfl, rfl, rfl, rfl, rfl, rfl, rfl, Or.inr ⟨findBestFit_none_spec _ _ hbf, ?_, rfl, rfl⟩⟩
      push_cast
      ring
  · obtain ⟨hget, hfit, hmin⟩ := findBestFit_some_spec _ _ _ _ _ hbf
    by_cases heq : sz0 = roundUp8 n
    · have hcs : s.claimStackSize n
          = .ok (off0, { s with free_stack_chunks := s.free_stack_chunks.eraseIdx pos }) := by
        simp [SM.claimStackSize, hn, hbf, heq]
      rw [hcs]
      exact ⟨rfl, rfl, rfl, rfl, rfl, rfl, rfl, rfl,
        Or.inl ⟨pos, (off0, sz0), hget, rfl, hfit, hmin, rfl, Or.inl ⟨heq, rfl⟩⟩⟩
    · have hcs : s.claimStackSize n
          = .ok (off0,
              { s with free_stack_chunks :=
                  (s.free_stack_chunks.set pos (off0 + (roundUp8 n : Int), sz0 - roundUp8 n)) }) := by
        simp [SM.claimStackSize, hn, hbf, heq]
      rw [hcs]
      exact ⟨rfl, rfl, rfl, rfl, rfl, rfl, rfl, rfl,
        Or.inl ⟨pos, (off0, sz0), hget, rfl, hfit, hmin, rfl,
          Or.inr ⟨lt_of_le_of_ne hfit (fun hx => heq hx.symm), rfl⟩⟩⟩

/-- C4: `claim_stack_area` (via `claim_stack_size`) reserves the request
rounded up to the next multiple of 8; if any free chunk is at least that
large it takes the smallest such chunk (best-fit by size), splitting it
and keeping the remainder when strictly larger; only when no chunk fits
does it grow the frame; the returned value is the base offset of the
reserved region, recorded in a fresh Allocation and `Complex` storage. -/
theorem c4_claim_stack_area_best_fit (s : SM) (sym : RocSym) (size : Nat)
    (h : 0 < size) :
    (size ≤ roundUp8 size ∧ roundUp8 size < size + 8 ∧ roundUp8 size % 8 = 0)
    ∧ match s.claimStackArea sym size with
      | .ok (off, s') =>
        ((∃ pos c, s.free_stack_chunks[pos]? = some c ∧ c.1 = off
            ∧ roundUp8 size ≤ c.2
            ∧ (∀ c' ∈ s.free_stack_chunks, roundUp8 size ≤ c'.2 → c.2 ≤ c'.2)
            ∧ s'.stack_size = s.stack_size
            ∧ ((c.2 = roundUp8 size ∧ s'.free_stack_chunks = s.free_stack_chunks.eraseIdx pos)
              ∨ (roundUp8 size < c.2
                ∧ s'.free_stack_chunks
                  = s.free_stack_chunks.set pos (off + (roundUp8 size : Int), c.2 - roundUp8 size))))
          ∨ ((∀ c ∈ s.free_stack_chunks, c.2 < roundUp8 size)
            ∧ off = -((s.stack_size : Int) + (roundUp8 size : Int))
            ∧ s'.stack_size = s.stack_size + roundUp8 size
            ∧ s'.free_stack_chunks = s.free_stack_chunks))
        ∧ s'.symbol_storage_map sym = some (Stack (Complex off size))
        ∧ alookup s'.allocation_map sym = some (s.next_alloc_id, off, size)
      | .error _ =>
        (∀ c ∈ s.free_stack_chunks, c.2 < roundUp8 size)
        ∧ 2147483647 < s.stack_size + roundUp8 size := by
  refine ⟨roundUp8_spec size, ?_⟩
  have hspec := claimStackSize_spec s size h
  unfold SM.claimStackArea
  rcases hcs : s.claimStackSize size with e | ⟨off, s1⟩
  · rw [hcs] at hspec
    simpa [Bind.bind, Except.bind] using hspec
  · rw [hcs] at hspec
    obtain ⟨hm, ha, hid, _, _, _, _, _, hrest⟩ := hspec
    simp only [Bind.bind, Except.bind]
    refine ⟨?_, ?_, ?_⟩
    · simpa using hrest
    · exact mapInsert_get_self _ _ _
    · rw [ha, hid]
      exact alookup_ainsert_self _ _ _

/-- Witness for C4: claiming 12 bytes in a fresh manager rounds to 16 and
grows the frame. -/
theorem c4_claim_stack_area_best_fit_witness :
    0 < (12 : Nat)
    ∧ ((12 ≤ roundUp8 12 ∧ roundUp8 12 < 12 + 8 ∧ roundUp8 12 % 8 = 0)
      ∧ match newStorageManager.claimStackArea 1 12 with
        | .ok (off, s') =>
          ((∃ pos c, newStorageManager.free_stack_chunks[pos]? = some c ∧ c.1 = off
              ∧ roundUp8 12 ≤ c.2
              ∧ (∀ c' ∈ newStorageManager.free_stack_chunks, roundUp8 12 ≤ c'.2 → c.2 ≤ c'.2)
              ∧ s'.stack_size = newStorageManager.stack_size
              ∧ ((c.2 = roundUp8 12
                  ∧ s'.free_stack_chunks = newStorageManager.free_stack_chunks.eraseIdx pos)
                ∨ (roundUp8 12 < c.2
                  ∧ s'.free_stack_chunks
                    = newStorageManager.free_stack_chunks.set pos
                        (off + (roundUp8 12 : Int), c.2 - roundUp8 12))))
            ∨ ((∀ c ∈ newStorageManager.free_stack_chunks, c.2 < roundUp8 12)
              ∧ off = -((newStorageManager.stack_size : Int) + (roundUp8 12 : Int))
              ∧ s'.stack_size = newStorageManager.stack_size + roundUp8 12
              ∧ s'.free_stack_chunks = newStorageManager.free_stack_chunks))
          ∧ s'.symbol_storage_map 1 = some (Stack (Complex off 12))
          ∧ alookup s'.allocation_map 1 = some (newStorageManager.next_alloc_id, off, 12)
        | .error _ =>
          (∀ c ∈ newStorageManager.free_stack_chunks, c.2 < roundUp8 12)
          ∧ 2147483647 < newStorageManager.stack_size + roundUp8 12) :=
  ⟨by decide, c4_claim_stack_area_best_fit newStorageManager 1 12 (by decide)⟩

/-! ## C3 -/

/-- Claiming 8 bytes on an 8-aligned frame with 8-aligned free chunks
succeeds and yields an 8-aligned offset. -/
theorem claimStackSize_eight (s : SM)
    (hal : ∀ c ∈ s.free_stack_chunks, (8 : Int) ∣ c.1)
    (hstk : 8 ∣ s.stack_size)
    (hcap : s.stack_size + 8 ≤ 2147483647) :
    ∃ off s', s.claimStackSize 8 = .ok (off, s')
      ∧ (8 : Int) ∣ off
      ∧ s'.symbol_storage_map = s.symbol_storage_map
      ∧ s'.general_used_regs = s.general_used_regs
      ∧ s'.general_free_regs = s.general_free_regs
      ∧ s'.float_used_regs = s.float_used_regs
      ∧ s'.float_free_regs = s.float_free_regs := by
  have hr8 : roundUp8 8 = 8 := rfl
  have hspec := claimStackSize_spec s 8 (by norm_num)
  rcases hcs : s.claimStackSize 8 with e | ⟨off, s'⟩
  · rw [hcs] at hspec
    rw [hr8] at hspec
    omega
  · rw [hcs] at hspec
    obtain ⟨hm, _, _, hgu, hgf, hfu, hff, _, hrest⟩ := hspec
    refine ⟨off, s', rfl, ?_, hm, hgu, hgf, hfu, hff⟩
    rw [hr8] at hrest
    rcases hrest with ⟨pos, c, hget, hoff, _⟩ | ⟨_, hoff, _⟩
    · rw [← hoff]
      exact hal c (List.getElem?_mem hget)
    · rw [hoff]
      rw [Int.dvd_neg]
      exact Dvd.dvd.add (Int.natCast_dvd_natCast.mpr hstk) (by norm_num)

/-- C3: whenever a register is requested and that class's free list is
empty while its used list is not, both `get_general_reg` (state `s`) and
`get_float_reg` (state `t`) evict the first (oldest, FIFO) used-list
entry: the evicted symbol's register value is spilled by one store
(`mov_base32_reg64` / `mov_base32_freg64`) to a freshly claimed
8-byte-aligned stack slot, its storage becomes a `Primitive` with
`reg: None`, and the evicted register itself is handed to the caller. -/
theorem c3_evict_fifo_spill (cc : CC) (s t : SM) (buf tbuf : List Instr)
    (reg : GReg) (freg : FReg) (sym fsym : RocSym)
    (rest : List (GReg × RocSym)) (frest : List (FReg × RocSym))
    (hfree : s.general_free_regs = [])
    (hused : s.general_used_regs = (reg, sym) :: rest)
    (hst : s.symbol_storage_map sym = some (Reg (General reg)))
    (hal : ∀ c ∈ s.free_stack_chunks, (8 : Int) ∣ c.1)
    (hstk : 8 ∣ s.stack_size)
    (hcap : s.stack_size + 8 ≤ 2147483647)
    (hffree : t.float_free_regs = [])
    (hfused : t.float_used_regs = (freg, fsym) :: frest)
    (hfst : t.symbol_storage_map fsym = some (Reg (Float freg)))
    (hfal : ∀ c ∈ t.free_stack_chunks, (8 : Int) ∣ c.1)
    (hfstk : 8 ∣ t.stack_size)
    (hfcap : t.stack_size + 8 ≤ 2147483647) :
    (∃ off s', (8 : Int) ∣ off
      ∧ s.getGeneralReg cc buf = .ok (reg, buf ++ [mov_base32_reg64 off reg], s')
      ∧ s'.symbol_storage_map sym = some (Stack (Primitive off none))
      ∧ s'.general_used_regs = rest)
    ∧ (∃ off t', (8 : Int) ∣ off
      ∧ t.getFloatReg cc tbuf = .ok (freg, tbuf ++ [mov_base32_freg64 off freg], t')
      ∧ t'.symbol_storage_map fsym = some (Stack (Primitive off none))
      ∧ t'.float_used_regs = frest) := by
  constructor
  · have hmid :
        ∃ off s2,
          SM.claimStackSize
            { s with
              general_used_regs := rest
              symbol_storage_map := mapErase s.symbol_storage_map sym } 8 = .ok (off, s2)
          ∧ (8 : Int) ∣ off
          ∧ s2.symbol_storage_map = mapErase s.symbol_storage_map sym
          ∧ s2.general_used_regs = rest := by
      obtain ⟨off, s2, hcs, hdvd, hm, hgu, _, _, _⟩ :=
        claimStackSize_eight
          { s with
            general_used_regs := rest
            symbol_storage_map := mapErase s.symbol_storage_map sym }
          hal hstk hcap
      exact ⟨off, s2, hcs, hdvd, hm, hgu⟩
    obtain ⟨off, s2, hcs, hdvd, hm, hgu⟩ := hmid
    refine ⟨off,
      { s2 with
        symbol_storage_map := mapInsert s2.symbol_storage_map sym (Stack (Primitive off none)) },
      hdvd, ?_, ?_, ?_⟩
    · simp only [SM.getGeneralReg, hfree, vecPop, hused, SM.freeToStack]
      have hmap1 : ({ s with general_used_regs := rest } : SM).symbol_storage_map sym
          = some (Reg (General reg)) := hst
      rw [hmap1]
      simp only [Bind.bind, Except.bind]
      rw [show ([] : List GReg) = s.general_free_regs from hfree.symm]
      rw [hcs]
      simp
    · exact mapInsert_get_self _ _ _
    · exact hgu
  · have hmid :
        ∃ off t2,
          SM.claimStackSize
            { t with
              float_used_regs := frest
              symbol_storage_map := mapErase t.symbol_storage_map fsym } 8 = .ok (off, t2)
          ∧ (8 : Int) ∣ off
          ∧ t2.symbol_storage_map = mapErase t.symbol_storage_map fsym
          ∧ t2.float_used_regs = frest := by
      obtain ⟨off, t2, hcs, hdvd, hm, _, _, hfu, _⟩ :=
        claimStackSize_eight
          { t with
            float_used_regs := frest
            symbol_storage_map := mapErase t.symbol_storage_map fsym }
          hfal hfstk hfcap
      exact ⟨off, t2, hcs, hdvd, hm, hfu⟩
    obtain ⟨off, t2, hcs, hdvd, hm, hfu⟩ := hmid
    refine ⟨off,
      { t2 with
        symbol_storage_map := mapInsert t2.symbol_storage_map fsym (Stack (Primitive off none)) },
      hdvd, ?_, ?_, ?_⟩
    · simp only [SM.getFloatReg, hffree, vecPop, hfused, SM.freeToStack]
      have hmap1 : ({ t with float_used_regs := frest } : SM).symbol_storage_map fsym
          = some (Reg (Float freg)) := hfst
      rw [hmap1]
      simp only [Bind.bind, Except.bind]
      rw [show ([] : List FReg) = t.float_free_regs from hffree.symm]
      rw [hcs]
      simp
    · exact mapInsert_get_self _ _ _
    · exact hfu

/-- Concrete state for the C3 general-register witness: no free general
registers, one used register (register 1 held by symbol 7). -/
def c3src : SM :=
  { newStorageManager with
    general_used_regs := [(1, 7)]
    symbol_storage_map := mapInsert newStorageManager.symbol_storage_map 7 (Reg (General 1)) }

/-- Concrete state for the C3 float-register witness: no free float
registers, one used register (register 16 held by symbol 9). -/
def c3fsrc : SM :=
  { newStorageManager with
    float_used_regs := [(16, 9)]
    symbol_storage_map := mapInsert newStorageManager.symbol_storage_map 9 (Reg (Float 16)) }

/-- Witness for C3: requesting a general register evicts general register
1, and requesting a float register evicts float register 16. -/
theorem c3_evict_fifo_spill_witness :
    (c3src.general_free_regs = [] ∧ c3src.general_used_regs = [(1, 7)]
      ∧ c3src.symbol_storage_map 7 = some (Reg (General 1))
      ∧ 8 ∣ c3src.stack_size ∧ c3src.stack_size + 8 ≤ 2147483647)
    ∧ (c3fsrc.float_free_regs = [] ∧ c3fsrc.float_used_regs = [(16, 9)]
      ∧ c3fsrc.symbol_storage_map 9 = some (Reg (Float 16))
      ∧ 8 ∣ c3fsrc.stack_size ∧ c3fsrc.stack_size + 8 ≤ 2147483647)
    ∧ (∃ off s', (8 : Int) ∣ off
      ∧ c3src.getGeneralReg ccModel [] = .ok (1, [] ++ [mov_base32_reg64 off 1], s')
      ∧ s'.symbol_storage_map 7 = some (Stack (Primitive off none))
      ∧ s'.general_used_regs = [])
    ∧ (∃ off t', (8 : Int) ∣ off
      ∧ c3fsrc.getFloatReg ccModel [] = .ok (16, [] ++ [mov_base32_freg64 off 16], t')
      ∧ t'.symbol_storage_map 9 = some (Stack (Primitive off none))
      ∧ t'.float_used_regs = []) := by
  have h := c3_evict_fifo_spill ccModel c3src c3fsrc [] [] 1 16 7 9 [] []
    rfl rfl rfl (by intro c hc; simp [c3src, newStorageManager] at hc)
    (dvd_zero 8) (by norm_num [c3src, newStorageManager])
    rfl rfl rfl (by intro c hc; simp [c3fsrc, newStorageManager] at hc)
    (dvd_zero 8) (by norm_num [c3fsrc, newStorageManager])
  exact ⟨⟨rfl, rfl, rfl, dvd_zero 8, by norm_num [c3src, newStorageManager]⟩,
    ⟨rfl, rfl, rfl, dvd_zero 8, by norm_num [c3fsrc, newStorageManager]⟩,
    h.1, h.2⟩

/-! ## C1 -/

/-- Two chunks are strictly separated: the first ends strictly before the
second starts (no overlap and no adjacency — adjacent chunks must have
been merged). -/
def chunkSep (a b : Int × Nat) : Prop := a.1 + (a.2 : Int) < b.1

/-- Well-formedness of the free-stack-chunk list: ordered by offset with
strict gaps (no two overlapping or adjacent-but-unmerged ranges), all
chunks non-empty. -/
def ChunksWF (l : List (Int × Nat)) : Prop :=
  l.Pairwise chunkSep ∧ ∀ c ∈ l, 0 < c.2

theorem chunkLt_true_elim {a loc : Int × Nat} (h : chunkLt a loc = true) :
    a.1 < loc.1 ∨ (a.1 = loc.1 ∧ a.2 < loc.2) := by
  simp only [chunkLt, Bool.or_eq_true, Bool.and_eq_true, decide_eq_true_eq] at h
  exact h

theorem chunkLt_false_elim {a loc : Int × Nat} (h : chunkLt a loc = false) :
    loc.1 < a.1 ∨ (loc.1 = a.1 ∧ loc.2 ≤ a.2) := by
  simp only [chunkLt, Bool.or_eq_false_iff, Bool.and_eq_false_iff,
    decide_eq_false_iff_not] at h
  obtain ⟨h1, h2⟩ := h
  rcases lt_or_eq_of_le (not_lt.mp h1) with hlt | heq
  · exact Or.inl hlt
  · rcases h2 with h2 | h2
    · exact absurd heq.symm h2
    · exact Or.inr ⟨heq, not_lt.mp h2⟩

/-- In a separated list, every element up to the last ends before the
last element starts. -/
theorem pairwise_rel_getLast {R : (Int × Nat) → (Int × Nat) → Prop}
    {l : List (Int × Nat)} {z : Int × Nat}
    (hpw : l.Pairwise R) (hz : l.getLast? = some z) :
    ∀ a ∈ l.dropLast, R a z := by
  have hsplit : l.dropLast ++ [z] = l := List.dropLast_append_getLast? z hz
  rw [← hsplit] at hpw
  rw [List.pairwise_append] at hpw
  intro a ha
  exact hpw.2.2 a ha z (List.mem_singleton_self z)

/-- If the last chunk of `A` ends at or before `off`, every chunk of `A`
ends at or before `off`. -/
theorem chunks_end_le {A : List (Int × Nat)} {z : Int × Nat} {off : Int}
    (hpw : A.Pairwise chunkSep)
    (hAL : A.getLast? = some z) (hz : z.1 + (z.2 : Int) ≤ off) :
    ∀ a ∈ A, a.1 + (a.2 : Int) ≤ off := by
  intro a ha
  have hsplit : A.dropLast ++ [z] = A := List.dropLast_append_getLast? z hAL
  rw [← hsplit] at ha
  rcases List.mem_append.mp ha with ha | ha
  · have hsep := pairwise_rel_getLast hpw hAL a ha
    have : a.1 + (a.2 : Int) < z.1 := hsep
    have hz2 : (0 : Int) ≤ (z.2 : Int) := Int.natCast_nonneg _
    omega
  · rw [List.mem_singleton.mp ha]
    exact hz

/-- If the first chunk of `B` starts at or after `hi`, every chunk of `B`
starts at or after `hi`. -/
theorem chunks_start_ge {B : List (Int × Nat)} {b : Int × Nat} {hi : Int}
    (hpw : B.Pairwise chunkSep) (hpos : ∀ c ∈ B, 0 < c.2)
    (hBH : B.head? = some b) (hb : hi ≤ b.1) :
    ∀ c ∈ B, hi ≤ c.1 := by
  intro c hc
  cases B with
  | nil => simp at hc
  | cons x t =>
    have hx : x = b := by simpa using hBH
    subst hx
    rcases List.mem_cons.mp hc with rfl | hc
    · exact hb
    · rw [List.pairwise_cons] at hpw
      have hsep := hpw.1 c hc
      have : x.1 + (x.2 : Int) < c.1 := hsep
      have : (0 : Int) ≤ (x.2 : Int) := Int.natCast_nonneg _
      omega

/-- Gluing a new chunk (or merged replacement) between two separated
halves preserves well-formedness. -/
theorem wf_glue {A B : List (Int × Nat)} {e : Int × Nat}
    (hpwA : A.Pairwise chunkSep) (hpwB : B.Pairwise chunkSep)
    (hcross : ∀ a ∈ A, ∀ b ∈ B, chunkSep a b)
    (hAe : ∀ a ∈ A, chunkSep a e) (heB : ∀ b ∈ B, chunkSep e b)
    (hposA : ∀ c ∈ A, 0 < c.2) (hposB : ∀ c ∈ B, 0 < c.2) (hpe : 0 < e.2) :
    ChunksWF (A ++ e :: B) := by
  constructor
  · rw [List.pairwise_append]
    refine ⟨hpwA, ?_, ?_⟩
    · rw [List.pairwise_cons]
      exact ⟨heB, hpwB⟩
    · intro a ha x hx
      rcases List.mem_cons.mp hx with rfl | hx
      · exact hAe a ha
      · exact hcross a ha x hx
  · intro c hc
    rcases List.mem_append.mp hc with hc | hc
    · exact hposA c hc
    · rcases List.mem_cons.mp hc with rfl | hc
      · exact hpe
      · exact hposB c hc

theorem pairwise_set {R : (Int × Nat) → (Int × Nat) → Prop}
    {l : List (Int × Nat)} {i : Nat} {a b : Int × Nat}
    (hpw : l.Pairwise R) (hget : l[i]? = some a)
    (h1 : ∀ x, R x a → R x b) (h2 : ∀ x, R a x → R b x) :
    (l.set i b).Pairwise R := by
  induction l generalizing i with
  | nil => simp
  | cons c t ih =>
    rw [List.pairwise_cons] at hpw
    cases i with
    | zero =>
      have hca : c = a := by simpa using hget
      subst hca
      rw [List.set_cons_zero, List.pairwise_cons]
      exact ⟨fun x hx => h2 x (hpw.1 x hx), hpw.2⟩
    | succ j =>
      have hget' : t[j]? = some a := by simpa using hget
      rw [List.set_cons_succ, List.pairwise_cons]
      constructor
      · intro x hx
        rcases List.mem_or_eq_of_mem_set hx with hx | rfl
        · exact hpw.1 x hx
        · exact h1 c (hpw.1 a (List.getElem?_mem hget'))
      · exact ih hpw.2 hget'

theorem wf_eraseIdx {l : List (Int × Nat)} (i : Nat) (h : ChunksWF l) :
    ChunksWF (l.eraseIdx i) :=
  ⟨h.1.sublist (List.eraseIdx_sublist l i),
   fun c hc => h.2 c ((List.eraseIdx_sublist l i).subset hc)⟩

theorem aerase_subset (l : List (Nat × α)) (k : Nat) :
    ∀ e ∈ aerase l k, e ∈ l := by
  induction l with
  | nil => simp [aerase]
  | cons p t ih =>
    intro e he
    simp only [aerase] at he
    split at he
    · exact List.mem_cons_of_mem _ he
    · rcases List.mem_cons.mp he with rfl | he
      · exact List.mem_cons_self _ _
      · exact List.mem_cons_of_mem _ (ih e he)

theorem ainsert_mem (l : List (Nat × α)) (k : Nat) (v : α) :
    ∀ e ∈ ainsert l k v, e ∈ l ∨ e = (k, v) := by
  intro e he
  unfold ainsert at he
  split at he
  · rw [List.mem_map] at he
    obtain ⟨p, hp, hpe⟩ := he
    by_cases hk : p.1 = k
    · rw [if_pos hk] at hpe
      exact Or.inr hpe.symm
    · rw [if_neg hk] at hpe
      exact Or.inl (hpe ▸ hp)
  · rcases List.mem_append.mp he with he | he
    · exact Or.inl he
    · exact Or.inr (List.mem_singleton.mp he)

theorem alookup_mem (l : List (Nat × α)) (k : Nat) (v : α)
    (h : alookup l k = some v) : (k, v) ∈ l := by
  induction l with
  | nil => simp [alookup] at h
  | cons p t ih =>
    obtain ⟨k', v'⟩ := p
    by_cases hk : k' = k
    · subst hk
      simp [alookup] at h
      subst h
      exact List.mem_cons_self _ _
    · simp only [alookup, if_neg hk] at h
      exact List.mem_cons_of_mem _ (ih h)

theorem chunks_end_lt {A : List (Int × Nat)} {z : Int × Nat} {off : Int}
    (hpw : A.Pairwise chunkSep)
    (hAL : A.getLast? = some z) (hz : z.1 + (z.2 : Int) < off) :
    ∀ a ∈ A, a.1 + (a.2 : Int) < off := by
  intro a ha
  have hsplit : A.dropLast ++ [z] = A := List.dropLast_append_getLast? z hAL
  rw [← hsplit] at ha
  rcases List.mem_append.mp ha with ha | ha
  · have hsep : a.1 + (a.2 : Int) < z.1 := pairwise_rel_getLast hpw hAL a ha
    have hz2 : (0 : Int) ≤ (z.2 : Int) := Int.natCast_nonneg _
    omega
  · rw [List.mem_singleton.mp ha]
    exact hz

theorem chunks_start_gt {B : List (Int × Nat)} {b : Int × Nat} {hi : Int}
    (hpw : B.Pairwise chunkSep) (hpos : ∀ c ∈ B, 0 < c.2)
    (hBH : B.head? = some b) (hb : hi < b.1) :
    ∀ c ∈ B, hi < c.1 := by
  intro c hc
  cases B with
  | nil => simp at hc
  | cons x t =>
    have hx : x = b := by simpa using hBH
    subst hx
    rcases List.mem_cons.mp hc with rfl | hc
    · exact hb
    · rw [List.pairwise_cons] at hpw
      have hs : x.1 + (x.2 : Int) < c.1 := hpw.1 c hc
      have : (0 : Int) ≤ (x.2 : Int) := Int.natCast_nonneg _
      omega

/-- Core coalescing property of fn free_stack_chunk: on a well-formed
free list, releasing a positive-size chunk that does not overlap any free
chunk yields a well-formed list again in which one single chunk covers
the released range (boundary-touching neighbours are merged into it);
moreover no original chunk overlaps the released range on success. -/
theorem freeStackChunk_ok_spec (chunks : List (Int × Nat)) (off : Int) (size : Nat)
    (hwf : ChunksWF chunks) (hsz : 0 < size) (chunks' : List (Int × Nat))
    (hok : freeStackChunk chunks off size = .ok chunks') :
    ChunksWF chunks'
    ∧ (∃ c ∈ chunks', c.1 ≤ off ∧ off + (size : Int) ≤ c.1 + (c.2 : Int))
    ∧ ∀ c ∈ chunks, ¬(c.1 < off + (size : Int) ∧ off < c.1 + (c.2 : Int)) := by
  obtain ⟨hpw0, hpos0⟩ := hwf
  simp only [freeStackChunk] at hok
  set A := chunks.takeWhile (fun c => chunkLt c (off, size)) with hA
  set B := chunks.dropWhile (fun c => chunkLt c (off, size)) with hB
  have hsplit : A ++ B = chunks := List.takeWhile_append_dropWhile (p := fun c => chunkLt c (off, size)) (l := chunks)
  clear_value A B
  clear hA hB
  rw [← hsplit] at hpw0 hpos0 ⊢
  rw [List.pairwise_append] at hpw0
  obtain ⟨hpwA, hpwB, hcross⟩ := hpw0
  have hposA : ∀ c ∈ A, 0 < c.2 := fun c hc => hpos0 c (List.mem_append_left _ hc)
  have hposB : ∀ c ∈ B, 0 < c.2 := fun c hc => hpos0 c (List.mem_append_right _ hc)
  rcases hBc : B with _ | ⟨⟨bo, bs⟩, t⟩
  · -- no next chunk
    subst hBc
    rcases hAL : A.getLast? with _ | ⟨zo, zs⟩
    · -- no previous chunk either: plain insertion
      have hAnil : A = [] := List.getLast?_eq_none_iff.mp hAL
      subst hAnil
      rw [hAL] at hok
      simp only [Bind.bind, Except.bind, List.head?_nil] at hok
      obtain rfl := (Except.ok.inj hok).symm
      refine ⟨?_, ⟨(off, size), by simp, le_refl _, by simp⟩, ?_⟩
      · exact wf_glue (List.Pairwise.nil) (List.Pairwise.nil)
          (by simp) (by simp) (by simp) (by simp) (by simp) hsz
      · intro c hc
        simp at hc
    · -- previous chunk only
      rw [hAL] at hok
      simp only [Bind.bind, Except.bind, List.head?_nil] at hok
      by_cases hzov : zo + (zs : Int) > off
      · rw [if_pos hzov] at hok
        simp only [Except.bind] at hok
        exact Except.noConfusion hok
      · rw [if_neg hzov] at hok
        have hzle : zo + (zs : Int) ≤ off := not_lt.mp hzov
        have hAend : ∀ a ∈ A, a.1 + (a.2 : Int) ≤ off := chunks_end_le hpwA hAL hzle
        have hAdrop : ∀ a ∈ A.dropLast, chunkSep a (zo, zs) :=
          pairwise_rel_getLast hpwA hAL
        have noov : ∀ c ∈ A ++ [], ¬(c.1 < off + (size : Int) ∧ off < c.1 + (c.2 : Int)) := by
          intro c hc ⟨_, h2⟩
          rw [List.append_nil] at hc
          exact absurd (hAend c hc) (not_le.mpr h2)
        by_cases hpe : zo + (zs : Int) = off
        · rw [decide_eq_true hpe] at hok
          simp only [Except.bind] at hok
          obtain rfl := (Except.ok.inj hok).symm
          refine ⟨?_, ⟨(zo, zs + size), by simp, ?_, ?_⟩, noov⟩
          · refine wf_glue (hpwA.sublist (List.dropLast_sublist A)) List.Pairwise.nil
              (by simp) (fun a ha => hAdrop a ha) (by simp)
              (fun c hc => hposA c ((List.dropLast_sublist A).subset hc))
              (by simp) (by positivity)
          · have : (0 : Int) ≤ (zs : Int) := Int.natCast_nonneg _
            omega
          · push_cast
            omega
        · rw [decide_eq_false hpe] at hok
          simp only [Except.bind] at hok
          obtain rfl := (Except.ok.inj hok).symm
          have hzlt : zo + (zs : Int) < off := lt_of_le_of_ne hzle hpe
          refine ⟨?_, ⟨(off, size), by simp, le_refl _, by simp⟩, noov⟩
          refine wf_glue hpwA List.Pairwise.nil (by simp) ?_ (by simp) hposA (by simp) hsz
          intro a ha
          exact chunks_end_lt hpwA hAL hzlt a ha
  · -- next chunk present
    subst hBc
    have hBhead : ((bo, bs) :: t).head? = some (bo, bs) := rfl
    have hheadsep : ∀ x ∈ t, chunkSep (bo, bs) x := by
      rw [List.pairwise_cons] at hpwB
      exact hpwB.1
    have hpwT : t.Pairwise chunkSep := by
      rw [List.pairwise_cons] at hpwB
      exact hpwB.2
    rcases hAL : A.getLast? with _ | ⟨zo, zs⟩
    · -- no previous chunk
      have hAnil : A = [] := List.getLast?_eq_none_iff.mp hAL
      subst hAnil
      rw [hAL] at hok
      simp only [Bind.bind, Except.bind, List.head?_cons, List.tail_cons] at hok
      by_cases hbov : off + (size : Int) > bo
      · rw [if_pos hbov] at hok
        exact Except.noConfusion hok
      · rw [if_neg hbov] at hok
        have hble : off + (size : Int) ≤ bo := not_lt.mp hbov
        have hBge : ∀ c ∈ (bo, bs) :: t, off + (size : Int) ≤ c.1 :=
          chunks_start_ge hpwB hposB hBhead hble
        have noov : ∀ c ∈ [] ++ (bo, bs) :: t,
            ¬(c.1 < off + (size : Int) ∧ off < c.1 + (c.2 : Int)) := by
          intro c hc ⟨h1, _⟩
          rw [List.nil_append] at hc
          exact absurd (hBge c hc) (not_le.mpr h1)
        by_cases hne : off + (size : Int) = bo
        · rw [decide_eq_true hne] at hok
          simp only [Except.bind] at hok
          obtain rfl := (Except.ok.inj hok).symm
          refine ⟨?_, ⟨(off, bs + size), by simp, le_refl _, by push_cast; omega⟩, noov⟩
          refine wf_glue List.Pairwise.nil hpwT (by simp) (by simp) ?_
            (by simp) (fun c hc => hposB c (List.mem_cons_of_mem _ hc)) (by positivity)
          intro x hx
          have := hheadsep x hx
          simp only [chunkSep] at this ⊢
          push_cast
          omega
        · rw [decide_eq_false hne] at hok
          simp only [Except.bind] at hok
          obtain rfl := (Except.ok.inj hok).symm
          have hblt : off + (size : Int) < bo := lt_of_le_of_ne hble hne
          refine ⟨?_, ⟨(off, size), by simp, le_refl _, by simp⟩, noov⟩
          refine wf_glue List.Pairwise.nil hpwB (by simp) (by simp) ?_ (by simp) hposB hsz
          intro x hx
          exact chunks_start_gt hpwB hposB hBhead hblt x hx
    · -- previous and next chunk present
      rw [hAL] at hok
      simp only [Bind.bind, Except.bind, List.head?_cons, List.tail_cons] at hok
      by_cases hzov : zo + (zs : Int) > off
      · rw [if_pos hzov] at hok
        simp only [Except.bind] at hok
        exact Except.noConfusion hok
      · rw [if_neg hzov] at hok
        have hzle : zo + (zs : Int) ≤ off := not_lt.mp hzov
        have hAend : ∀ a ∈ A, a.1 + (a.2 : Int) ≤ off := chunks_end_le hpwA hAL hzle
        have hAdrop : ∀ a ∈ A.dropLast, chunkSep a (zo, zs) :=
          pairwise_rel_getLast hpwA hAL
        by_cases hbov : off + (size : Int) > bo
        · rw [if_pos hbov] at hok
          simp only [Except.bind] at hok
          exact Except.noConfusion hok
        · rw [if_neg hbov] at hok
          have hble : off + (size : Int) ≤ bo := not_lt.mp hbov
          have hBge : ∀ c ∈ (bo, bs) :: t, off + (size : Int) ≤ c.1 :=
            chunks_start_ge hpwB hposB hBhead hble
          have noov : ∀ c ∈ A ++ (bo, bs) :: t,
              ¬(c.1 < off + (size : Int) ∧ off < c.1 + (c.2 : Int)) := by
            intro c hc ⟨h1, h2⟩
            rcases List.mem_append.mp hc with hc | hc
            · exact absurd (hAend c hc) (not_le.mpr h2)
            · exact absurd (hBge c hc) (not_le.mpr h1)
          by_cases hpe : zo + (zs : Int) = off
          · rw [decide_eq_true hpe] at hok
            by_cases hne : off + (size : Int) = bo
            · rw [decide_eq_true hne] at hok
              simp only [Except.bind] at hok
              obtain rfl := (Except.ok.inj hok).symm
              refine ⟨?_, ⟨(zo, zs + size + bs), by simp, ?_, ?_⟩, noov⟩
              · refine wf_glue (hpwA.sublist (List.dropLast_sublist A)) hpwT
                  (fun a ha x hx =>
                    hcross a ((List.dropLast_sublist A).subset ha) x (List.mem_cons_of_mem _ hx))
                  (fun a ha => hAdrop a ha) ?_
                  (fun c hc => hposA c ((List.dropLast_sublist A).subset hc))
                  (fun c hc => hposB c (List.mem_cons_of_mem _ hc)) (by positivity)
                intro x hx
                have := hheadsep x hx
                simp only [chunkSep] at this ⊢
                push_cast
                omega
              · have : (0 : Int) ≤ (zs : Int) := Int.natCast_nonneg _
                omega
              · push_cast
                omega
            · rw [decide_eq_false hne] at hok
              simp only [Except.bind] at hok
              obtain rfl := (Except.ok.inj hok).symm
              have hblt : off + (size : Int) < bo := lt_of_le_of_ne hble hne
              refine ⟨?_, ⟨(zo, zs + size), by simp, ?_, ?_⟩, noov⟩
              · refine wf_glue (hpwA.sublist (List.dropLast_sublist A)) hpwB
                  (fun a ha x hx =>
                    hcross a ((List.dropLast_sublist A).subset ha) x hx)
                  (fun a ha => hAdrop a ha) ?_
                  (fun c hc => hposA c ((List.dropLast_sublist A).subset hc))
                  hposB (by positivity)
                intro x hx
                have hgt := chunks_start_gt hpwB hposB hBhead hblt x hx
                simp only [chunkSep]
                push_cast
                omega
              · have : (0 : Int) ≤ (zs : Int) := Int.natCast_nonneg _
                omega
              · push_cast
                omega
          · rw [decide_eq_false hpe] at hok
            have hzlt : zo + (zs : Int) < off := lt_of_le_of_ne hzle hpe
            have hAlt : ∀ a ∈ A, chunkSep a (off, size) := by
              intro a ha
              exact chunks_end_lt hpwA hAL hzlt a ha
            by_cases hne : off + (size : Int) = bo
            · rw [decide_eq_true hne] at hok
              simp only [Except.bind] at hok
              obtain rfl := (Except.ok.inj hok).symm
              refine ⟨?_, ⟨(off, bs + size), by simp, le_refl _, by push_cast; omega⟩, noov⟩
              refine wf_glue hpwA hpwT
                (fun a ha x hx => hcross a ha x (List.mem_cons_of_mem _ hx))
                (fun a ha => hAlt a ha) ?_
                hposA (fun c hc => hposB c (List.mem_cons_of_mem _ hc)) (by positivity)
              intro x hx
              have := hheadsep x hx
              simp only [chunkSep] at this ⊢
              push_cast
              omega
            · rw [decide_eq_false hne] at hok
              simp only [Except.bind] at hok
              obtain rfl := (Except.ok.inj hok).symm
              have hblt : off + (size : Int) < bo := lt_of_le_of_ne hble hne
              refine ⟨?_, ⟨(off, size), by simp, le_refl _, by simp⟩, noov⟩
              refine wf_glue hpwA hpwB hcross (fun a ha => hAlt a ha) ?_ hposA hposB hsz
              intro x hx
              exact chunks_start_gt hpwB hposB hBhead hblt x hx

/-- The C1 state invariant: the free list is well-formed and every
recorded allocation has positive size. -/
def InvC1 (s : SM) : Prop :=
  ChunksWF s.free_stack_chunks ∧ ∀ e ∈ s.allocation_map, 0 < e.2.2.2

theorem claimStackSize_wf (s : SM) (n : Nat) (off : Int) (s' : SM)
    (hwf : ChunksWF s.free_stack_chunks)
    (h : s.claimStackSize n = .ok (off, s')) : ChunksWF s'.free_stack_chunks := by
  rcases Nat.eq_zero_or_pos n with rfl | hn
  · simp [SM.claimStackSize] at h
  have hspec := claimStackSize_spec s n hn
  rw [h] at hspec
  obtain ⟨_, _, _, _, _, _, _, _, hrest⟩ := hspec
  rcases hrest with ⟨pos, c, hget, hoff, hfit, _, _, hcase⟩ | ⟨_, _, _, hchunks⟩
  · rcases hcase with ⟨heq, hch⟩ | ⟨hlt, hch⟩
    · rw [hch]
      exact wf_eraseIdx pos hwf
    · rw [hch]
      constructor
      · refine pairwise_set hwf.1 hget ?_ ?_
        · intro x hx
          simp only [chunkSep] at hx ⊢
          have : (0 : Int) ≤ (roundUp8 n : Int) := Int.natCast_nonneg _
          omega
        · intro x hx
          simp only [chunkSep] at hx ⊢
          have hc2 : ((c.2 - roundUp8 n : Nat) : Int) = (c.2 : Int) - (roundUp8 n : Int) :=
            Int.ofNat_sub hlt.le
          omega
      · intro x hx
        rcases List.mem_or_eq_of_mem_set hx with hx | rfl
        · exact hwf.2 x hx
        · simp only
          omega
  · rw [hchunks]
    exact hwf

theorem claimStackArea_inv (s : SM) (sym : RocSym) (size : Nat) (off : Int) (s' : SM)
    (hinv : InvC1 s) (h : s.claimStackArea sym size = .ok (off, s')) : InvC1 s' := by
  have hsz : 0 < size := by
    rcases Nat.eq_zero_or_pos size with rfl | hsz
    · simp [SM.claimStackArea, SM.claimStackSize, Bind.bind, Except.bind] at h
    · exact hsz
  unfold SM.claimStackArea at h
  rcases hcs : s.claimStackSize size with e | ⟨off0, s1⟩
  · rw [hcs] at h
    simp [Bind.bind, Except.bind] at h
  · rw [hcs] at h
    simp only [Bind.bind, Except.bind, Except.ok.injEq, Prod.mk.injEq] at h
    obtain ⟨rfl, rfl⟩ := h
    have hspec := claimStackSize_spec s size hsz
    rw [hcs] at hspec
    obtain ⟨_, hal, _, _, _, _, _, _, _⟩ := hspec
    constructor
    · exact claimStackSize_wf s size off0 s1 hinv.1 hcs
    · intro e he
      rcases ainsert_mem _ _ _ e he with he | rfl
      · rw [hal] at he
        exact hinv.2 e he
      · exact hsz

theorem freeSymbol_inv (s : SM) (sym : RocSym) (s' : SM)
    (hinv : InvC1 s) (h : s.freeSymbol sym = .ok s') : InvC1 s' := by
  unfold SM.freeSymbol at h
  by_cases hj : (s.join_param_map sym).isSome
  · rw [if_pos hj] at h
    obtain rfl := (Except.ok.inj h).symm
    exact hinv
  · rw [if_neg hj] at h
    rcases hst : s.symbol_storage_map sym with _ | st
    · rw [hst] at h
      simp only [Bind.bind, Except.bind] at h
      obtain rfl := (Except.ok.inj h).symm
      exact hinv
    · rcases st with r | sst | _
      · rw [hst] at h
        simp only [Bind.bind, Except.bind] at h
        obtain rfl := (Except.ok.inj h).symm
        exact hinv
      · rcases sst with ⟨boff, mreg⟩ | ⟨boff, bsz, bse⟩ | ⟨boff, bsz⟩
        · -- Primitive: free the 8-byte chunk
          rw [hst] at h
          simp only [Bind.bind, Except.bind] at h
          rcases hfc : freeStackChunk s.free_stack_chunks boff 8 with e | ch
          · rw [hfc] at h
            simp [Except.map] at h
          · rw [hfc] at h
            simp only [Except.map] at h
            obtain rfl := (Except.ok.inj h).symm
            exact ⟨(freeStackChunk_ok_spec _ _ _ hinv.1 (by norm_num) _ hfc).1, hinv.2⟩
        · -- ReferencedPrimitive: drop the reference
          rw [hst] at h
          simp only [Bind.bind, Except.bind, SM.freeReference] at h
          rcases halk : alookup s.allocation_map sym with _ | ⟨id, aoff, asz⟩
          · rw [halk] at h
            simp at h
          · simp only [halk] at h
            have hasz : 0 < asz := hinv.2 (sym, (id, aoff, asz)) (alookup_mem _ _ _ halk)
            have haer : ∀ e ∈ aerase s.allocation_map sym, 0 < e.2.2.2 :=
              fun e he => hinv.2 e (aerase_subset _ _ e he)
            by_cases hall : ((aerase s.allocation_map sym).all fun e => decide (e.2.1 ≠ id)) = true
            · rw [if_pos hall] at h
              rcases hfc : freeStackChunk s.free_stack_chunks aoff asz with e | ch
              · rw [hfc] at h
                simp [Bind.bind, Except.bind] at h
              · rw [hfc] at h
                simp only [Bind.bind, Except.bind] at h
                obtain rfl := (Except.ok.inj h).symm
                exact ⟨(freeStackChunk_ok_spec _ _ _ hinv.1 hasz _ hfc).1, haer⟩
            · rw [if_neg hall] at h
              obtain rfl := (Except.ok.inj h).symm
              exact ⟨hinv.1, haer⟩
        · -- Complex: drop the reference
          rw [hst] at h
          simp only [Bind.bind, Except.bind, SM.freeReference] at h
          rcases halk : alookup s.allocation_map sym with _ | ⟨id, aoff, asz⟩
          · rw [halk] at h
            simp at h
          · simp only [halk] at h
            have hasz : 0 < asz := hinv.2 (sym, (id, aoff, asz)) (alookup_mem _ _ _ halk)
            have haer : ∀ e ∈ aerase s.allocation_map sym, 0 < e.2.2.2 :=
              fun e he => hinv.2 e (aerase_subset _ _ e he)
            by_cases hall : ((aerase s.allocation_map sym).all fun e => decide (e.2.1 ≠ id)) = true
            · rw [if_pos hall] at h
              rcases hfc : freeStackChunk s.free_stack_chunks aoff asz with e | ch
              · rw [hfc] at h
                simp [Bind.bind, Except.bind] at h
              · rw [hfc] at h
                simp only [Bind.bind, Except.bind] at h
                obtain rfl := (Except.ok.inj h).symm
                exact ⟨(freeStackChunk_ok_spec _ _ _ hinv.1 hasz _ hfc).1, haer⟩
            · rw [if_neg hall] at h
              obtain rfl := (Except.ok.inj h).symm
              exact ⟨hinv.1, haer⟩
      · rw [hst] at h
        simp only [Bind.bind, Except.bind] at h
        obtain rfl := (Except.ok.inj h).symm
        exact hinv

theorem runStackOps_inv (ops : List StackOp) (s : SM) (hinv : InvC1 s) :
    ∀ s', runStackOps s ops = .ok s' → InvC1 s' := by
  induction ops generalizing s with
  | nil =>
    intro s' h
    obtain rfl := Except.ok.inj h
    exact hinv
  | cons op rest ih =>
    intro s' h
    rcases op with ⟨sym, size⟩ | sym
    · unfold runStackOps at h
      rcases hca : s.claimStackArea sym size with e | ⟨off, s1⟩
      · rw [hca] at h
        simp [Bind.bind, Except.bind, Except.map] at h
      · rw [hca] at h
        simp only [Bind.bind, Except.bind, Except.map] at h
        exact ih s1 (claimStackArea_inv s sym size off s1 hinv hca) s' h
    · unfold runStackOps at h
      rcases hfs : s.freeSymbol sym with e | s1
      · rw [hfs] at h
        simp [Bind.bind, Except.bind] at h
      · rw [hfs] at h
        simp only [Bind.bind, Except.bind] at h
        exact ih s1 (freeSymbol_inv s sym s1 hinv hfs) s' h

/-- C1: for every sequence of `claim_stack_area` / `free_symbol`
operations the free-stack-chunk list stays sorted by offset with no two
overlapping or adjacent-but-unmerged ranges; releasing a chunk whose
boundary touches existing free chunks merges them into a single chunk
covering the released range, and releasing a chunk that overlaps an
existing free chunk aborts with an internal error. -/
theorem c1_free_chunk_coalescing :
    (∀ (ops : List StackOp) (s : SM), InvC1 s →
      ∀ s', runStackOps s ops = .ok s' → ChunksWF s'.free_stack_chunks)
    ∧ (∀ (chunks : List (Int × Nat)) (off : Int) (size : Nat) (chunks' : List (Int × Nat)),
        ChunksWF chunks → 0 < size →
        freeStackChunk chunks off size = .ok chunks' →
        ChunksWF chunks'
          ∧ ∃ c ∈ chunks', c.1 ≤ off ∧ off + (size : Int) ≤ c.1 + (c.2 : Int))
    ∧ (∀ (chunks : List (Int × Nat)) (off : Int) (size : Nat),
        ChunksWF chunks → 0 < size →
        (∃ c ∈ chunks, c.1 < off + (size : Int) ∧ off < c.1 + (c.2 : Int)) →
        ∃ e, freeStackChunk chunks off size = .error e) := by
  refine ⟨?_, ?_, ?_⟩
  · intro ops s hinv s' h
    exact (runStackOps_inv ops s hinv s' h).1
  · intro chunks off size chunks' hwf hsz hok
    obtain ⟨h1, h2, _⟩ := freeStackChunk_ok_spec chunks off size hwf hsz chunks' hok
    exact ⟨h1, h2⟩
  · intro chunks off size hwf hsz hov
    rcases hr : freeStackChunk chunks off size with e | chunks'
    · exact ⟨e, rfl⟩
    · obtain ⟨c, hc, h1, h2⟩ := hov
      obtain ⟨_, _, hnoov⟩ := freeStackChunk_ok_spec chunks off size hwf hsz chunks' hr
      exact absurd ⟨h1, h2⟩ (hnoov c hc)

/-- Witness for C1: claim a 24-byte area for symbol 1 in a fresh manager
and release it again; the invariant holds along the run. -/
theorem c1_free_chunk_coalescing_witness :
    InvC1 newStorageManager
    ∧ ∀ s', runStackOps newStorageManager [StackOp.claimArea 1 24, StackOp.free 1] = .ok s' →
        ChunksWF s'.free_stack_chunks :=
  ⟨⟨⟨List.Pairwise.nil, by simp [newStorageManager]⟩, by simp [newStorageManager]⟩,
   fun s' h =>
     c1_free_chunk_coalescing.1 [StackOp.claimArea 1 24, StackOp.free 1] newStorageManager
       ⟨⟨List.Pairwise.nil, by simp [newStorageManager]⟩, by simp [newStorageManager]⟩ s' h⟩

/-! ## C7 -/

/-- The storages `setup_joinpoint` may record: stack-homed (a bare
`Primitive` slot or a `Complex` area) or `NoData` — never a register. -/
def GoodJoinStorage (st : Storage) : Prop :=
  st = NoData ∨ (∃ o, st = Stack (Primitive o none)) ∨ ∃ o sz, st = Stack (Complex o sz)

theorem claimStackArea_storage (s : SM) (sym : RocSym) (size : Nat) (off : Int) (s' : SM)
    (h : s.claimStackArea sym size = .ok (off, s')) :
    s'.symbol_storage_map sym = some (Stack (Complex off size)) := by
  unfold SM.claimStackArea at h
  rcases hcs : s.claimStackSize size with e | ⟨off0, s1⟩
  · rw [hcs] at h
    simp [Bind.bind, Except.bind] at h
  · rw [hcs] at h
    simp only [Bind.bind, Except.bind, Except.ok.injEq, Prod.mk.injEq] at h
    obtain ⟨rfl, rfl⟩ := h
    exact mapInsert_get_self _ _ _

theorem setupJoinpointGo_good :
    ∀ (params : List (RocSym × MLayout)) (s : SM) (acc : List Storage),
      (∀ st ∈ acc, GoodJoinStorage st) →
      ∀ s' l, s.setupJoinpointGo acc params = .ok (s', l) →
      ∀ st ∈ l, GoodJoinStorage st := by
  intro params
  induction params with
  | nil =>
    intro s acc hacc s' l h
    unfold SM.setupJoinpointGo at h
    simp only [Except.ok.injEq, Prod.mk.injEq] at h
    obtain ⟨rfl, rfl⟩ := h
    exact hacc
  | cons p rest ih =>
    obtain ⟨symbol, layout⟩ := p
    intro s acc hacc s' l h
    unfold SM.setupJoinpointGo at h
    by_cases hl : layout.isSingleRegLayout = true
    · rw [if_pos hl] at h
      rcases hcs : s.claimStackSize 8 with e | ⟨base, s1⟩
      · rw [hcs] at h
        simp [Bind.bind, Except.bind] at h
      · rw [hcs] at h
        simp only [Bind.bind, Except.bind, pure, Except.pure] at h
        simp only [SM.getStorageForSym, mapInsert_get_self] at h
        refine ih _ _ ?_ s' l h
        intro st hst
        rcases List.mem_append.mp hst with hst | hst
        · exact hacc st hst
        · rw [List.mem_singleton.mp hst]
          exact Or.inr (Or.inl ⟨base, rfl⟩)
    · rw [if_neg hl] at h
      by_cases hz : layout.stackSize = 0
      · rw [if_pos hz] at h
        simp only [Bind.bind, Except.bind, pure, Except.pure] at h
        simp only [SM.getStorageForSym, mapInsert_get_self] at h
        refine ih _ _ ?_ s' l h
        intro st hst
        rcases List.mem_append.mp hst with hst | hst
        · exact hacc st hst
        · rw [List.mem_singleton.mp hst]
          exact Or.inl rfl
      · rw [if_neg hz] at h
        rcases hca : s.claimStackArea symbol layout.stackSize with e | ⟨off, s1⟩
        · rw [hca] at h
          simp [Bind.bind, Except.bind] at h
        · rw [hca] at h
          simp only [Bind.bind, Except.bind, pure, Except.pure] at h
          simp only [SM.getStorageForSym,
            claimStackArea_storage s symbol _ off s1 hca] at h
          refine ih _ _ ?_ s' l h
          intro st hst
          rcases List.mem_append.mp hst with hst | hst
          · exact hacc st hst
          · rw [List.mem_singleton.mp hst]
            exact Or.inr (Or.inr ⟨off, layout.stackSize, rfl⟩)

theorem setupJumpGo_error (cc : CC) (s : SM) :
    ∀ (pre : List ((RocSym × MLayout) × Storage)) (buf : List Instr)
      (post : List ((RocSym × MLayout) × Storage))
      (sym : RocSym) (layout : MLayout) (r : RegStorage),
      (∀ p ∈ pre, ∃ st, s.symbol_storage_map p.1.1 = some st ∧ (st = p.2 ∨ p.2 = NoData)) →
      (∀ st, s.symbol_storage_map sym = some st → st ≠ Reg r) →
      ∃ e, s.setupJumpGo cc buf (pre ++ ((sym, layout), Reg r) :: post) = .error e := by
  intro pre
  induction pre with
  | nil =>
    intro buf post sym layout r _ hoff
    rw [List.nil_append]
    unfold SM.setupJumpGo
    rcases hst : s.symbol_storage_map sym with _ | st
    · exact ⟨"Unknown symbol", by simp [SM.getStorageForSym, hst, Bind.bind, Except.bind]⟩
    · have hne : ¬ st = Reg r := hoff st hst
      refine ⟨"Register storage is not allowed for jumping to joinpoint", ?_⟩
      simp only [SM.getStorageForSym, hst, Bind.bind, Except.bind]
      rw [if_neg hne]
  | cons p pre ih =>
    intro buf post sym layout r hpre hoff
    obtain ⟨⟨psym, playout⟩, pst⟩ := p
    obtain ⟨st, hstp, hcase⟩ := hpre _ (List.mem_cons_self _ _)
    have hpre' : ∀ p ∈ pre, ∃ st, s.symbol_storage_map p.1.1 = some st
        ∧ (st = p.2 ∨ p.2 = NoData) :=
      fun p hp => hpre p (List.mem_cons_of_mem _ hp)
    rw [List.cons_append]
    unfold SM.setupJumpGo
    simp only [SM.getStorageForSym, hstp, Bind.bind, Except.bind]
    rcases hcase with rfl | rfl
    · rw [if_pos rfl]
      exact ih buf post sym layout r hpre' hoff
    · by_cases heqn : st = NoData
      · rw [if_pos heqn]
        exact ih buf post sym layout r hpre' hoff
      · rw [if_neg heqn]
        exact ih buf post sym layout r hpre' hoff

/-- C7: `setup_joinpoint` only ever records stack-homed or `NoData`
storage for join-point parameters (never a bare register or a
register-mirrored primitive); and `setup_jump` fails with an internal
error when a parameter's wanted storage is a bare register that differs
from the argument's current storage (the earlier parameters matching
their wanted storage or being `NoData`). -/
theorem c7_join_params_stack_homed :
    (∀ (s : SM) (id : JoinPointId) (params : List (RocSym × MLayout)) (s' : SM)
        (l : List Storage),
      s.setupJoinpoint id params = .ok s' →
      s'.join_param_map id = some l →
      ∀ st ∈ l, GoodJoinStorage st)
    ∧ (∀ (cc : CC) (s : SM) (buf : List Instr) (id : JoinPointId)
        (args : List (RocSym × MLayout)) (storages : List Storage)
        (pre post : List ((RocSym × MLayout) × Storage))
        (sym : RocSym) (layout : MLayout) (r : RegStorage),
      s.join_param_map id = some storages →
      args.zip storages = pre ++ ((sym, layout), Reg r) :: post →
      (∀ p ∈ pre, ∃ st, s.symbol_storage_map p.1.1 = some st ∧ (st = p.2 ∨ p.2 = NoData)) →
      (∀ st, s.symbol_storage_map sym = some st → st ≠ Reg r) →
      ∃ e, s.setupJump cc buf id args = .error e) := by
  constructor
  · intro s id params s' l hok hl
    unfold SM.setupJoinpoint at hok
    rcases hgo : s.setupJoinpointGo [] params with e | ⟨s1, storages⟩
    · rw [hgo] at hok
      simp [Bind.bind, Except.bind] at hok
    · rw [hgo] at hok
      simp only [Bind.bind, Except.bind, Except.ok.injEq] at hok
      subst hok
      have : l = storages := by
        have := hl
        rw [show ({ s1 with join_param_map := mapInsert s1.join_param_map id storages }
            : SM).join_param_map id = some storages from mapInsert_get_self _ _ _] at this
        exact (Option.some.inj this).symm
      subst this
      exact setupJoinpointGo_good params s [] (by simp) s1 l hgo
  · intro cc s buf id args storages pre post sym layout r hjoin hzip hpre hoff
    unfold SM.setupJump
    rw [hjoin]
    obtain ⟨e, hgo⟩ :=
      setupJumpGo_error cc { s with join_param_map := mapErase s.join_param_map id }
        pre buf post sym layout r hpre hoff
    refine ⟨e, ?_⟩
    rw [← hzip] at hgo
    simp only [Bind.bind, Except.bind, hgo]

/-- Concrete state for the C7 witness: a join point (id 0) whose recorded
parameter storages contain a bare register in second position (a state
`setup_joinpoint` itself never produces), and two argument symbols on the
stack. -/
def c7src : SM :=
  { newStorageManager with
    join_param_map :=
      mapInsert newStorageManager.join_param_map 0
        [Stack (Primitive (-8) none), Reg (General 0)]
    symbol_storage_map :=
      mapInsert
        (mapInsert newStorageManager.symbol_storage_map 5 (Stack (Primitive (-8) none)))
        6 (Stack (Primitive (-16) none)) }

/-- Witness for C7: jumping to that join point fails with an internal
error at the register-typed parameter. -/
theorem c7_join_params_stack_homed_witness :
    (c7src.join_param_map 0 = some [Stack (Primitive (-8) none), Reg (General 0)]
      ∧ [(5, MLayout.u64), (6, MLayout.u64)].zip
          [Stack (Primitive (-8) none), Reg (General 0)]
        = [((5, MLayout.u64), Stack (Primitive (-8) none))]
          ++ ((6, MLayout.u64), Reg (General 0)) :: [])
    ∧ ∃ e, c7src.setupJump ccModel [] 0 [(5, MLayout.u64), (6, MLayout.u64)] = .error e :=
  ⟨⟨rfl, rfl⟩,
   c7_join_params_stack_homed.2 ccModel c7src [] 0
     [(5, MLayout.u64), (6, MLayout.u64)]
     [Stack (Primitive (-8) none), Reg (General 0)]
     [((5, MLayout.u64), Stack (Primitive (-8) none))] []
     6 MLayout.u64 (General 0) rfl rfl
     (by
       intro p hp
       rw [List.mem_singleton.mp hp]
       exact ⟨Stack (Primitive (-8) none), rfl, Or.inl rfl⟩)
     (by
       intro st hst
       have : st = Stack (Primitive (-16) none) := by
         simpa [c7src, newStorageManager, mapInsert] using hst.symm
       rw [this]
       simp)⟩

/-! ## C5 -/

theorem writeBytesAt_length {buf : List Nat} {loc : Nat} {bytes buf2 : List Nat}
    (h : writeBytesAt buf loc bytes = some buf2) : buf2.length = buf.length := by
  unfold writeBytesAt at h
  split at h
  · obtain rfl := Option.some.inj h
    simp only [List.length_append, List.length_take, List.length_drop]
    omega
  · exact Option.noConfusion h

theorem writeBytesAt_bound {buf : List Nat} {loc : Nat} {bytes buf2 : List Nat}
    (h : writeBytesAt buf loc bytes = some buf2) : loc + bytes.length ≤ buf.length := by
  unfold writeBytesAt at h
  split at h
  · assumption
  · exact Option.noConfusion h

theorem writeBytesAt_get_outside {buf : List Nat} {loc : Nat} {bytes buf2 : List Nat}
    (h : writeBytesAt buf loc bytes = some buf2) (j : Nat)
    (hj : j < loc ∨ loc + bytes.length ≤ j) : buf2[j]? = buf[j]? := by
  have hb := writeBytesAt_bound h
  unfold writeBytesAt at h
  rw [if_pos hb] at h
  obtain rfl := (Option.some.inj h).symm
  rcases hj with hj | hj
  · rw [List.getElem?_append_left, List.getElem?_append_left]
    · exact List.getElem?_take_of_lt hj
    · simp only [List.length_take]
      omega
    · simp only [List.length_append, List.length_take]
      omega
  · rw [List.getElem?_append_right]
    · simp only [List.length_append, List.length_take, List.getElem?_drop]
      congr 1
      omega
    · simp only [List.length_append, List.length_take]
      omega

theorem writeBytesAt_get_inside {buf : List Nat} {loc : Nat} {bytes buf2 : List Nat}
    (h : writeBytesAt buf loc bytes = some buf2) (i : Nat) (hi : i < bytes.length) :
    buf2[loc + i]? = bytes[i]? := by
  have hb := writeBytesAt_bound h
  unfold writeBytesAt at h
  rw [if_pos hb] at h
  obtain rfl := (Option.some.inj h).symm
  rw [List.getElem?_append_left, List.getElem?_append_right]
  · simp only [List.length_take]
    congr 1
    omega
  · simp only [List.length_take]
    omega
  · simp only [List.length_append, List.length_take]
    omega

/-- Start locations of the jump-to-return relocations that `finalize`
actually rewrites (the non-trailing ones). -/
def patchLocs (bufLen : Nat) (relocs : List MReloc) : List Nat :=
  relocs.filterMap (fun r =>
    match r with
    | .jmpToReturn loc sz _ => if loc + sz = bufLen then none else some loc
    | _ => none)

theorem patch_length {je : Int → List Nat} {n ret : Nat} :
    ∀ (relocs : List MReloc) (buf buf2 : List Nat),
      patchJmpsToReturn je n ret relocs buf = some buf2 → buf2.length = buf.length := by
  intro relocs
  induction relocs with
  | nil =>
    intro buf buf2 h
    exact congrArg List.length (Option.some.inj h).symm
  | cons q rest ih =>
    intro buf buf2 h
    cases q with
    | jmpToReturn ql qs qoff =>
      unfold patchJmpsToReturn at h
      by_cases hqt : ql + qs = n
      · rw [if_pos hqt] at h
        exact ih buf buf2 h
      · rw [if_neg hqt] at h
        rcases hw : writeBytesAt buf ql (je ((ret : Int) - (qoff : Int))) with _ | bufW
        · rw [hw] at h
          exact Option.noConfusion h
        · rw [hw] at h
          rw [ih bufW buf2 h]
          exact writeBytesAt_length hw
    | localData o d =>
      unfold patchJmpsToReturn at h
      exact ih buf buf2 h
    | linkedData o d =>
      unfold patchJmpsToReturn at h
      exact ih buf buf2 h
    | linkedFunction o d =>
      unfold patchJmpsToReturn at h
      exact ih buf buf2 h

theorem patch_frame {je : Int → List Nat} {jmpLen n ret : Nat}
    (hEnc : ∀ o, (je o).length = jmpLen) :
    ∀ (relocs : List MReloc) (buf buf2 : List Nat),
      patchJmpsToReturn je n ret relocs buf = some buf2 →
      ∀ j, (∀ loc sz off0, MReloc.jmpToReturn loc sz off0 ∈ relocs →
          loc + sz = n ∨ j < loc ∨ loc + jmpLen ≤ j) →
      buf2[j]? = buf[j]? := by
  intro relocs
  induction relocs with
  | nil =>
    intro buf buf2 h j _
    rw [(Option.some.inj h).symm]
  | cons q rest ih =>
    intro buf buf2 h j hdisj
    have hdisj' : ∀ loc sz off0, MReloc.jmpToReturn loc sz off0 ∈ rest →
        loc + sz = n ∨ j < loc ∨ loc + jmpLen ≤ j :=
      fun loc sz off0 hm => hdisj loc sz off0 (List.mem_cons_of_mem _ hm)
    cases q with
    | jmpToReturn ql qs qoff =>
      unfold patchJmpsToReturn at h
      by_cases hqt : ql + qs = n
      · rw [if_pos hqt] at h
        exact ih buf buf2 h j hdisj'
      · rw [if_neg hqt] at h
        rcases hw : writeBytesAt buf ql (je ((ret : Int) - (qoff : Int))) with _ | bufW
        · rw [hw] at h
          exact Option.noConfusion h
        · rw [hw] at h
          rw [ih bufW buf2 h j hdisj']
          refine writeBytesAt_get_outside hw j ?_
          rcases hdisj ql qs qoff (List.mem_cons_self _ _) with hc | hc | hc
          · exact absurd hc hqt
          · exact Or.inl hc
          · rw [hEnc]
            exact Or.inr hc
    | localData o d =>
      unfold patchJmpsToReturn at h
      exact ih buf buf2 h j hdisj'
    | linkedData o d =>
      unfold patchJmpsToReturn at h
      exact ih buf buf2 h j hdisj'
    | linkedFunction o d =>
      unfold patchJmpsToReturn at h
      exact ih buf buf2 h j hdisj'

theorem patch_inside {je : Int → List Nat} {jmpLen n ret : Nat}
    (hEnc : ∀ o, (je o).length = jmpLen) :
    ∀ (relocs : List MReloc) (buf buf2 : List Nat),
      patchJmpsToReturn je n ret relocs buf = some buf2 →
      (patchLocs n relocs).Pairwise (fun a b => a + jmpLen ≤ b ∨ b + jmpLen ≤ a) →
      ∀ loc sz off0, MReloc.jmpToReturn loc sz off0 ∈ relocs → loc + sz ≠ n →
      ∀ i, i < jmpLen → buf2[loc + i]? = (je ((ret : Int) - (off0 : Int)))[i]? := by
  intro relocs
  induction relocs with
  | nil =>
    intro buf buf2 _ _ loc sz off0 hmem
    simp at hmem
  | cons q rest ih =>
    intro buf buf2 h hdisj loc sz off0 hmem hnt i hi
    cases q with
    | jmpToReturn ql qs qoff =>
      unfold patchJmpsToReturn at h
      by_cases hqt : ql + qs = n
      · rw [if_pos hqt] at h
        have hdisj' : (patchLocs n rest).Pairwise
            (fun a b => a + jmpLen ≤ b ∨ b + jmpLen ≤ a) := by
          have : patchLocs n (MReloc.jmpToReturn ql qs qoff :: rest) = patchLocs n rest := by
            simp [patchLocs, List.filterMap_cons, hqt]
          rw [this] at hdisj
          exact hdisj
        rcases List.mem_cons.mp hmem with heq | hmem'
        · injection heq with h1 h2 h3
          subst h1; subst h2
          exact absurd hqt hnt
        · exact ih buf buf2 h hdisj' loc sz off0 hmem' hnt i hi
      · rw [if_neg hqt] at h
        rcases hw : writeBytesAt buf ql (je ((ret : Int) - (qoff : Int))) with _ | bufW
        · rw [hw] at h
          exact Option.noConfusion h
        · rw [hw] at h
          have hplcons : patchLocs n (MReloc.jmpToReturn ql qs qoff :: rest)
              = ql :: patchLocs n rest := by
            simp [patchLocs, List.filterMap_cons, hqt]
          rw [hplcons, List.pairwise_cons] at hdisj
          obtain ⟨hhead, htail⟩ := hdisj
          rcases List.mem_cons.mp hmem with heq | hmem'
          · injection heq with h1 h2 h3
            subst h1; subst h2; subst h3
            have hfr : buf2[loc + i]? = bufW[loc + i]? := by
              refine patch_frame hEnc rest bufW buf2 h (loc + i) ?_
              intro loc2 sz2 off2 hm2
              by_cases ht2 : loc2 + sz2 = n
              · exact Or.inl ht2
              · have hl2 : loc2 ∈ patchLocs n rest := by
                  simp only [patchLocs, List.mem_filterMap]
                  exact ⟨_, hm2, by simp [ht2]⟩
                rcases hhead loc2 hl2 with hd | hd
                · exact Or.inr (Or.inl (by omega))
                · exact Or.inr (Or.inr (by omega))
            rw [hfr]
            exact writeBytesAt_get_inside hw i (by rw [hEnc]; exact hi)
          · exact ih bufW buf2 h htail loc sz off0 hmem' hnt i hi
    | localData o d =>
      unfold patchJmpsToReturn at h
      have : patchLocs n (MReloc.localData o d :: rest) = patchLocs n rest := by
        simp [patchLocs, List.filterMap_cons]
      rw [this] at hdisj
      rcases List.mem_cons.mp hmem with heq | hmem'
      · exact MReloc.noConfusion heq
      · exact ih buf buf2 h hdisj loc sz off0 hmem' hnt i hi
    | linkedData o d =>
      unfold patchJmpsToReturn at h
      have : patchLocs n (MReloc.linkedData o d :: rest) = patchLocs n rest := by
        simp [patchLocs, List.filterMap_cons]
      rw [this] at hdisj
      rcases List.mem_cons.mp hmem with heq | hmem'
      · exact MReloc.noConfusion heq
      · exact ih buf buf2 h hdisj loc sz off0 hmem' hnt i hi
    | linkedFunction o d =>
      unfold patchJmpsToReturn at h
      have : patchLocs n (MReloc.linkedFunction o d :: rest) = patchLocs n rest := by
        simp [patchLocs, List.filterMap_cons]
      rw [this] at hdisj
      rcases List.mem_cons.mp hmem with heq | hmem'
      · exact MReloc.noConfusion heq
      · exact ih buf buf2 h hdisj loc sz off0 hmem' hnt i hi

theorem findEndJmpSize_le (n : Nat) :
    ∀ relocs : List MReloc, findEndJmpSize n relocs ≤ n := by
  intro relocs
  induction relocs with
  | nil => simp [findEndJmpSize]
  | cons q rest ih =>
    cases q with
    | jmpToReturn ql qs qoff =>
      unfold findEndJmpSize
      by_cases hqt : ql + qs = n
      · rw [if_pos hqt]
        omega
      · rw [if_neg hqt]
        exact ih
    | localData o d => exact ih
    | linkedData o d => exact ih
    | linkedFunction o d => exact ih

theorem findEndJmpSize_eq_find (n : Nat) :
    ∀ relocs : List MReloc,
      findEndJmpSize n relocs
        = (match relocs.find? (fun r =>
            match r with
            | .jmpToReturn l s _ => decide (l + s = n)
            | _ => false) with
          | some (.jmpToReturn _ s _) => s
          | _ => 0) := by
  intro relocs
  induction relocs with
  | nil => simp [findEndJmpSize]
  | cons q rest ih =>
    cases q with
    | jmpToReturn ql qs qoff =>
      unfold findEndJmpSize
      by_cases hqt : ql + qs = n
      · rw [if_pos hqt, List.find?_cons_of_pos _ (by simp [hqt])]
      · rw [if_neg hqt, List.find?_cons_of_neg _ (by simp [hqt])]
        exact ih
    | localData o d =>
      unfold findEndJmpSize
      rw [List.find?_cons_of_neg _ (by simp)]
      exact ih
    | linkedData o d =>
      unfold findEndJmpSize
      rw [List.find?_cons_of_neg _ (by simp)]
      exact ih
    | linkedFunction o d =>
      unfold findEndJmpSize
      rw [List.find?_cons_of_neg _ (by simp)]
      exact ih

theorem getElem?_append_middle (pre mid post : List Nat) (k : Nat) (hk : k < mid.length) :
    (pre ++ (mid ++ post))[pre.length + k]? = mid[k]? := by
  rw [List.getElem?_append_right (by omega)]
  rw [Nat.add_sub_cancel_left]
  exact List.getElem?_append_left hk

/-- **C5.** During `finalize`, every `JmpToReturn` relocation from body
emission is rewritten to jump to the epilogue start (displacement
`ret_offset - offset`), except that when the body's final instruction is
itself a jump-to-return (its end equals the body buffer length) that
trailing jump's bytes are dropped from the output and no patch is made for
it: (a) the elided size is the size of the first trailing jump-to-return
relocation (0 if none); (b) the emitted code is setup ++ body-without-the-
trailing-jump ++ cleanup ++ ret; (c) the bytes of every non-trailing
jump-to-return are replaced by the re-encoded jump targeting the epilogue
start; (d) all other body bytes are copied unchanged; (e) no `JmpToReturn`
relocation survives into the returned relocation list. -/
theorem c5_finalize_jmp_elision
    (setup cleanup ret : List Nat) (jmpEncode : Int → List Nat) (jmpLen : Nat)
    (buf : List Nat) (relocs : List MReloc)
    (hEnc : ∀ o, (jmpEncode o).length = jmpLen)
    (hIn : ∀ loc sz off0, MReloc.jmpToReturn loc sz off0 ∈ relocs →
        sz = jmpLen ∧ (loc + sz = buf.length ∨
          loc + sz + findEndJmpSize buf.length relocs ≤ buf.length))
    (hDisj : (patchLocs buf.length relocs).Pairwise
        (fun a b => a + jmpLen ≤ b ∨ b + jmpLen ≤ a))
    (out : List Nat) (outRelocs : List MReloc)
    (hOk : finalizeModel setup cleanup ret jmpEncode buf relocs = .ok (out, outRelocs)) :
    (findEndJmpSize buf.length relocs
      = (match relocs.find? (fun r =>
          match r with
          | .jmpToReturn l s _ => decide (l + s = buf.length)
          | _ => false) with
        | some (.jmpToReturn _ s _) => s
        | _ => 0))
    ∧ out.length = setup.length + (buf.length - findEndJmpSize buf.length relocs)
        + cleanup.length + ret.length
    ∧ (∀ loc sz off0, MReloc.jmpToReturn loc sz off0 ∈ relocs →
        loc + sz ≠ buf.length →
        loc + jmpLen ≤ buf.length - findEndJmpSize buf.length relocs ∧
        ∀ i, i < jmpLen →
          out[setup.length + loc + i]?
            = (jmpEncode (((buf.length - findEndJmpSize buf.length relocs : Nat) : Int)
                - (off0 : Int)))[i]?)
    ∧ (∀ j, j < buf.length - findEndJmpSize buf.length relocs →
        (∀ loc sz off0, MReloc.jmpToReturn loc sz off0 ∈ relocs →
            loc + sz = buf.length ∨ j < loc ∨ loc + jmpLen ≤ j) →
        out[setup.length + j]? = buf[j]?)
    ∧ (∀ loc sz off0, MReloc.jmpToReturn loc sz off0 ∉ outRelocs) := by
  simp only [finalizeModel] at hOk
  split at hOk
  · exact Except.noConfusion hOk
  next patched hp =>
    injection hOk with hpair
    simp only [Prod.mk.injEq] at hpair
    obtain ⟨hout, hrel⟩ := hpair
    subst hout
    subst hrel
    have hplen : patched.length = buf.length := patch_length relocs buf patched hp
    have hele : findEndJmpSize buf.length relocs ≤ buf.length :=
      findEndJmpSize_le buf.length relocs
    have hassoc : setup ++ patched.take (buf.length - findEndJmpSize buf.length relocs)
          ++ cleanup ++ ret
        = setup ++ (patched.take (buf.length - findEndJmpSize buf.length relocs)
          ++ (cleanup ++ ret)) := by
      simp [List.append_assoc]
    refine ⟨findEndJmpSize_eq_find buf.length relocs, ?_, ?_, ?_, ?_⟩
    · simp only [List.length_append, List.length_take]
      omega
    · intro loc sz off0 hmem hnt
      obtain ⟨hsz, hb⟩ := hIn loc sz off0 hmem
      have hbound : loc + jmpLen ≤ buf.length - findEndJmpSize buf.length relocs := by
        rcases hb with hb | hb
        · exact absurd hb hnt
        · omega
      refine ⟨hbound, ?_⟩
      intro i hi
      rw [hassoc]
      have hidx : setup.length + loc + i = setup.length + (loc + i) := by omega
      rw [hidx]
      rw [getElem?_append_middle setup _ (cleanup ++ ret) (loc + i)
        (by simp only [List.length_take]; omega)]
      rw [List.getElem?_take_of_lt (by omega)]
      exact patch_inside hEnc relocs buf patched hp hDisj loc sz off0 hmem hnt i hi
    · intro j hj hcond
      rw [hassoc]
      rw [getElem?_append_middle setup _ (cleanup ++ ret) j
        (by simp only [List.length_take]; omega)]
      rw [List.getElem?_take_of_lt hj]
      exact patch_frame hEnc relocs buf patched hp j hcond
    · intro loc sz off0 hmem
      simp only [List.mem_filterMap] at hmem
      obtain ⟨r0, _, hr0⟩ := hmem
      cases r0 <;> simp at hr0

def c5je : Int → List Nat := fun o => [200, o.toNat % 256]

def c5buf : List Nat := [10, 11, 12, 13, 14, 15]

def c5relocs : List MReloc :=
  [.localData 1 7, .jmpToReturn 0 2 0, .jmpToReturn 4 2 4]

def c5out : List Nat := [1, 1, 1, 200, 4, 12, 13, 2, 2, 3]

def c5outRelocs : List MReloc := [.localData 4 7]

theorem c5_finalize_jmp_elision_witness :
    finalizeModel [1, 1, 1] [2, 2] [3] c5je c5buf c5relocs = .ok (c5out, c5outRelocs)
    ∧ findEndJmpSize c5buf.length c5relocs = 2
    ∧ c5out.length = 3 + (c5buf.length - 2) + 2 + 1
    ∧ c5out[3]? = some 200 ∧ c5out[4]? = some 4
    ∧ c5out[3 + 2]? = c5buf[2]?
    ∧ (∀ loc sz off0, MReloc.jmpToReturn loc sz off0 ∉ c5outRelocs) := by
  have hOk : finalizeModel [1, 1, 1] [2, 2] [3] c5je c5buf c5relocs
      = .ok (c5out, c5outRelocs) := by rfl
  have h := c5_finalize_jmp_elision [1, 1, 1] [2, 2] [3] c5je 2 c5buf c5relocs
    (fun _ => rfl)
    (by
      intro loc sz off0 hm
      simp only [c5relocs, List.mem_cons, List.not_mem_nil, or_false] at hm
      rcases hm with hm | hm | hm
      · exact MReloc.noConfusion hm
      · injection hm with h1 h2 h3
        subst h1
        subst h2
        decide
      · injection hm with h1 h2 h3
        subst h1
        subst h2
        decide)
    (by decide)
    c5out c5outRelocs hOk
  obtain ⟨ha, hb, hc, hd, he⟩ := h
  have hfind : findEndJmpSize c5buf.length c5relocs = 2 := by
    rw [ha]
    decide
  refine ⟨hOk, hfind, ?_, ?_, ?_, ?_, he⟩
  · rw [hb, hfind]
    decide
  · have h1 := (hc 0 2 0 (by decide) (by decide)).2 0 (by decide)
    rw [hfind] at h1
    exact h1
  · have h1 := (hc 0 2 0 (by decide) (by decide)).2 1 (by decide)
    rw [hfind] at h1
    exact h1
  · have h1 := hd 2 (by rw [hfind]; decide)
      (by
        intro loc sz off0 hm
        simp only [c5relocs, List.mem_cons, List.not_mem_nil, or_false] at hm
        rcases hm with hm | hm | hm
        · exact MReloc.noConfusion hm
        · injection hm with h1 h2 h3
          subst h1
          subst h2
          decide
        · injection hm with h1 h2 h3
          subst h1
          subst h2
          decide)
    exact h1
